import Mathlib

/-!
Verification of the poststation-util client transport and typed RPC layer.

The definitions below are a shallow embedding of
`src/tools/poststation-sdk/src/lib.rs`: the COBS framer used by
`TcpCommsTx::send_inner` / `TcpCommsRx::receive_inner`, and the pure
decision structure of the `PoststationClient` operations and the two
connect paths.  Bytes are modelled as `Nat`; stateful async loops are
modelled as explicit state-passing recursion; fallible calls are
modelled with `Option` / `Except`.
-/

namespace Poststation

/-- One byte of the TCP stream.  The Rust code uses `u8`; we model bytes
as `Nat`, stating zero-freedom and length bounds explicitly where they
matter. -/
abbrev Byte := Nat

/-- Modelled from the spec: the byte-stuffing transform applied by
`TcpCommsTx::send_inner` is `cobs::encode_vec` from the external `cobs`
crate, whose source is not part of this repository.  The spec fixes the
contract: a length-free byte-stuffing whose output contains no `0x00`
byte and whose canonical choice is COBS.  This is canonical COBS: the
input is cut at each `0x00` into blocks of at most 254 data bytes; each
block is emitted as a code byte (block length + 1, or `0xFF` for a full
254-byte block that implies no `0x00`) followed by the block data. -/
def cobsEncode (l : List Byte) : List Byte :=
  let blk := (l.takeWhile (fun b => b != 0)).take 254
  if blk.length = 254 then
    255 :: blk ++ (if h : l.drop 254 = [] then [] else cobsEncode (l.drop 254))
  else
    match h2 : l.drop blk.length with
    | [] => (blk.length + 1) :: blk
    | _ :: r => ((blk.length + 1) :: blk) ++ cobsEncode r
termination_by l.length
decreasing_by
  · have hne : l.drop 254 ≠ [] := h
    have hpos : 0 < (l.drop 254).length := List.length_pos.mpr hne
    simp only [List.length_drop] at hpos ⊢
    omega
  · have h4 : (l.drop blk.length).length = l.length - blk.length := by simp
    rw [h2] at h4
    simp only [List.length_cons] at h4
    omega

/-- Modelled from the spec: the inverse transform used by
`receive_inner` is `cobs::decode_vec` on a frame whose only `0x00` is
the trailing terminator; we model the decode of the terminator-free
prefix.  Each group is a code byte `c` (zero is invalid) followed by
`c - 1` data bytes; a group that is not last implies a `0x00` after its
data unless `c = 255`; a frame ending inside a group is invalid. -/
def cobsDecode (l : List Byte) : Option (List Byte) :=
  match l with
  | [] => none
  | c :: rest =>
    if c = 0 then none
    else if rest.length < c - 1 then none
    else if rest.drop (c - 1) = [] then some (rest.take (c - 1))
    else if c = 255 then (cobsDecode (rest.drop (c - 1))).map (fun d => rest.take (c - 1) ++ d)
    else (cobsDecode (rest.drop (c - 1))).map (fun d => rest.take (c - 1) ++ 0 :: d)
termination_by l.length
decreasing_by
  all_goals
    simp only [List.length_cons, List.length_drop]
    omega

/-- Bytes written by `TcpCommsTx::send_inner` for one payload: the COBS
encoding followed by a single `0x00` terminator
(`cobs::encode_vec(&data)` then `data.push(0)`). -/
def sendFrame (payload : List Byte) : List Byte := cobsEncode payload ++ [0]

/-- The receive accumulator cap of `TcpCommsRx::receive_inner`:
`self.buf.len() > (1024 * 1024)` triggers the overflow branch. -/
def rxCap : Nat := 1024 * 1024

/-- The stack read buffer of `receive_inner` is `[0u8; 1024]`, so one
`read` call appends at most 1024 bytes to the accumulator. -/
def rxChunkMax : Nat := 1024

/-- Observable outcome of one pass of the `receive_inner` loop body:
a decoded frame returned with `Ok`, a discarded bad message (logged with
the discarded length, including the terminator), or the `RxOverflow`
error after clearing the accumulator. -/
inductive RxEvent where
  | frame (msg : List Byte)
  | discard (n : Nat)
  | overflow
  deriving DecidableEq, Repr

/-- Outcome of one split of the accumulator at a `0x00`: the bytes
before the terminator are COBS-decoded; success returns the frame with
`Ok`, failure logs the discarded length (`split.len()`, terminator
included) and the loop continues. -/
def rxDecodeEvent (seg : List Byte) : RxEvent :=
  match cobsDecode seg with
  | some msg => RxEvent.frame msg
  | none => RxEvent.discard (seg.length + 1)

/-- State-machine model of `TcpCommsRx::receive_inner` called repeatedly
on one connection: `buf` is the persistent accumulator `self.buf`, and
`chunks` the successive results of `self.rx.read` (each at most
`rxChunkMax` bytes in the real code).  Each loop iteration first checks
the 1 MiB cap (clear + `RxOverflow`), then looks for the first `0x00`:
if present, the bytes before it are split off and COBS-decoded
(`rxDecodeEvent`); otherwise more data is read.  The run ends when the
read side has no more data. -/
def rxRun (buf : List Byte) (chunks : List (List Byte)) : List RxEvent :=
  if buf.length > rxCap then RxEvent.overflow :: rxRun [] chunks
  else
    match h : buf.dropWhile (fun b => b != 0) with
    | _ :: tail => rxDecodeEvent (buf.takeWhile (fun b => b != 0)) :: rxRun tail chunks
    | [] =>
      match chunks with
      | [] => []
      | c :: cs => rxRun (buf ++ c) cs
termination_by (chunks.length, buf.length)
decreasing_by
  all_goals first
    | (apply Prod.Lex.left
       simp only [List.length_cons]
       omega)
    | (apply Prod.Lex.right
       first
         | (have hc : 0 < rxCap := by decide
            simp only [List.length_nil]
            omega)
         | (have h1 : (List.dropWhile (fun b => b != 0) buf).length ≤ buf.length := by
              conv_rhs => rw [← List.takeWhile_append_dropWhile (fun b => b != 0) buf]
              simp only [List.length_append]
              omega
            rw [h] at h1
            simp only [List.length_cons] at h1
            omega))

/-- The framing of fully-buffered data, ignoring the accumulator cap:
repeatedly split at the first `0x00` and attempt a COBS decode of the
prefix; data after the last `0x00` is incomplete and produces nothing.
This is the chunking-independent abstraction of `rxRun`. -/
def rxPure (data : List Byte) : List RxEvent :=
  match h : data.dropWhile (fun b => b != 0) with
  | [] => []
  | _ :: tail => rxDecodeEvent (data.takeWhile (fun b => b != 0)) :: rxPure tail
termination_by data.length
decreasing_by
  all_goals
    have h1 : (List.dropWhile (fun b => b != 0) data).length ≤ data.length := by
      conv_rhs => rw [← List.takeWhile_append_dropWhile (fun b => b != 0) data]
      simp only [List.length_append]
      omega
    rw [h] at h1
    simp only [List.length_cons] at h1
    omega

/-- Length of the longest `0x00`-free run in a byte stream: an upper
bound for how large the accumulator can grow (plus one read) before a
`0x00` is found. -/
def maxRun (l : List Byte) : Nat :=
  match h : l.dropWhile (fun b => b != 0) with
  | [] => (l.takeWhile (fun b => b != 0)).length
  | _ :: tail => max (l.takeWhile (fun b => b != 0)).length (maxRun tail)
termination_by l.length
decreasing_by
  all_goals
    have h1 : (List.dropWhile (fun b => b != 0) l).length ≤ l.length := by
      conv_rhs => rw [← List.takeWhile_append_dropWhile (fun b => b != 0) l]
      simp only [List.length_append]
      omega
    rw [h] at h1
    simp only [List.length_cons] at h1
    omega

/-! ### Wire data model (`poststation-api-icd` and postcard-rpc host types)

Opaque identifiers (8-byte keys, 16-byte UUIDv7 stream ids, schema
trees) are used by the client only up to equality, so they are modelled
as `Nat`. -/

/-- An 8-byte endpoint/topic key; the client only compares keys for
equality. -/
abbrev Key := Nat

/-- An opaque schema tree (`OwnedNamedType`); the client only hands it
to the dynamic codec. -/
abbrev SchemaTy := Nat

/-- A `Uuidv7` (16 opaque bytes); the client only compares stream ids
for equality. -/
abbrev Uuid := Nat

/-- A single quote character, used in the `Remote` error strings. -/
def squote : String := String.singleton (Char.ofNat 39)

/-- Modelled from the spec: `WireError` from postcard-rpc
`standard_icd` (external crate); the spec lists exactly these
variants. -/
inductive WireError where
  | FrameTooLong (len maxLen : Nat)
  | FrameTooShort (len : Nat)
  | DeserFailed
  | SerFailed
  | UnknownKey
  | FailedToSpawn
  | KeyTooSmall
  deriving DecidableEq, Repr

/-- Modelled from the spec: the text produced by Rust derived `Debug`
formatting (`format!("{body:?}")`) for a `WireError` value. -/
def WireError.debugStr : WireError → String
  | .FrameTooLong len maxLen =>
      "FrameTooLong \x7b len: " ++ toString len ++ ", max: " ++ toString maxLen ++ " \x7d"
  | .FrameTooShort len => "FrameTooShort \x7b len: " ++ toString len ++ " \x7d"
  | .DeserFailed => "DeserFailed"
  | .SerFailed => "SerFailed"
  | .UnknownKey => "UnknownKey"
  | .FailedToSpawn => "FailedToSpawn"
  | .KeyTooSmall => "KeyTooSmall"

/-- Modelled from the spec: `HostErr<WireError>`, the error type of
`HostClient::send_resp` in postcard-rpc (external crate).  The `From`
impl in `lib.rs` matches exactly these four constructors. -/
inductive HostErr where
  | wire (e : WireError)
  | badResponse
  | postcard
  | closed
  deriving DecidableEq, Repr

/-- The `ClientError` enum of `lib.rs`. -/
inductive ClientError where
  | ConnectionClosed
  | Protocol
  | Encoding
  | Server (msg : String)
  | Remote (msg : String)
  | Dynamic (msg : String)
  deriving DecidableEq, Repr

/-- The `impl From<HostErr<WireError>> for ClientError` conversion used
by every `?` on a `send_resp` result. -/
def ClientError.ofHostErr : HostErr → ClientError
  | .wire _ => .Protocol
  | .badResponse => .Protocol
  | .postcard => .Encoding
  | .closed => .ConnectionClosed

/-- One entry of `topics_in` / `topics_out` of a schema report
(`TopicReport`: path, key and schema tree). -/
structure TopicReport where
  path : String
  key : Key
  ty : SchemaTy
  deriving DecidableEq, Repr

/-- One entry of `endpoints` of a schema report (`EndpointReport`). -/
structure EndpointReport where
  path : String
  req_key : Key
  req_ty : SchemaTy
  resp_key : Key
  resp_ty : SchemaTy
  deriving DecidableEq, Repr

/-- A device schema report (`SchemaReport`); the `types` set is never
consulted by the client operations modelled here and is omitted. -/
structure SchemaReport where
  topics_in : List TopicReport
  topics_out : List TopicReport
  endpoints : List EndpointReport
  deriving DecidableEq, Repr

/-- Model of `ProxyRequest` from `poststation-api-icd`. -/
structure ProxyRequest where
  serial : Nat
  path : String
  req_key : Key
  resp_key : Key
  seq_no : Nat
  req_body : List Byte
  deriving DecidableEq, Repr

/-- Model of `ProxyResponse` from `poststation-api-icd`. -/
inductive ProxyResponse where
  | Ok (resp_key : Key) (seq_no : Nat) (body : List Byte)
  | WireErr (resp_key : Key) (seq_no : Nat) (body : WireError)
  | OtherErr (msg : String)
  deriving DecidableEq, Repr

/-- Model of `PublishRequest` from `poststation-api-icd`. -/
structure PublishRequest where
  serial : Nat
  path : String
  topic_key : Key
  seq_no : Nat
  topic_body : List Byte
  deriving DecidableEq, Repr

/-- Model of `PublishResponse` from `poststation-api-icd`. -/
inductive PublishResponse where
  | Sent
  | OtherErr (msg : String)
  deriving DecidableEq, Repr

/-- Model of `TopicRequest` from `poststation-api-icd`. -/
structure TopicRequest where
  serial : Nat
  path : String
  key : Key
  count : Nat
  deriving DecidableEq, Repr

/-- Model of `TopicMsg` from `poststation-api-icd`. -/
structure TopicMsg where
  uuidv7 : Uuid
  msg : List Byte
  deriving DecidableEq, Repr

/-- Model of `TopicStreamRequest` from `poststation-api-icd`. -/
structure TopicStreamRequest where
  serial : Nat
  path : String
  key : Key
  deriving DecidableEq, Repr

/-- Model of `TopicStreamResult` from `poststation-api-icd`. -/
inductive TopicStreamResult where
  | Started (id : Uuid)
  | NoDeviceKnown
  | DeviceDisconnected
  | NoSuchTopic
  deriving DecidableEq, Repr

/-- Model of `TopicStreamMsg` from `poststation-api-icd`: a fanout message on the
shared `rack/devices/stream` topic, tagged with its stream id. -/
structure TopicStreamMsg where
  stream_id : Uuid
  msg : List Byte
  deriving DecidableEq, Repr

/-- One outcome of `MultiSubscription::recv` that does not end the
stream: a delivered fanout message, or a lag report.  End of stream
(`MultiSubRxError::IoClosed`) is modelled as the end of the item
list. -/
inductive SubRecv where
  | lagged (n : Nat)
  | msg (m : TopicStreamMsg)
  deriving DecidableEq, Repr

/-- The daemon as seen through `HostClient::send_resp`, one oracle per
endpoint used by `PoststationClient`: each call either produces the
response of the given endpoint or fails with a `HostErr` (connection
closed, wire error, bad response, postcard error). -/
structure Daemon where
  schemas : Nat → Except HostErr (Option SchemaReport)
  proxy : ProxyRequest → Except HostErr ProxyResponse
  publish : PublishRequest → Except HostErr PublishResponse
  topics : TopicRequest → Except HostErr (Option (List TopicMsg))
  startStream : TopicStreamRequest → Except HostErr TopicStreamResult

/-! ### `PoststationClient` operations -/

/-- Model of `PoststationClient::get_device_schemas`: forwards the
`GetSchemasEndpoint` response, converting a `HostErr` through
`ClientError::ofHostErr` (the `?` operator). -/
def get_device_schemas (d : Daemon) (serial : Nat) :
    Except ClientError (Option SchemaReport) :=
  match d.schemas serial with
  | .error e => .error (ClientError.ofHostErr e)
  | .ok v => .ok v

/-- Model of `PoststationClient::get_device_topics_out_by_path_raw`: fetch the
schema report (propagating errors with `?`), return `Ok(None)` for an
unknown device or an unknown `topics_out` path, else request the stored
messages. -/
def get_device_topics_out_by_path_raw (d : Daemon) (serial : Nat) (path : String)
    (count : Nat) : Except ClientError (Option (List TopicMsg)) :=
  match get_device_schemas d serial with
  | .error e => .error e
  | .ok none => .ok none
  | .ok (some schemas) =>
    match (schemas.topics_out.find? (fun t => t.path == path)).map (fun t => t.key) with
    | none => .ok none
    | some key =>
      match d.topics ⟨serial, path, key, count⟩ with
      | .error e => .error (ClientError.ofHostErr e)
      | .ok v => .ok v

/-- Model of `PoststationClient::get_device_topics_out_by_path_json`: as the raw
variant, but each stored message is decoded against the reported schema
tree with `postcard_dyn::from_slice_dyn` (modelled by the `dynDec`
oracle); a decode failure is mapped to `ClientError::Encoding` by
`.map_err(|_| ClientError::Encoding)?` inside the `collect`. -/
def get_device_topics_out_by_path_json {V : Type}
    (d : Daemon) (dynDec : SchemaTy → List Byte → Except String V)
    (serial : Nat) (path : String) (count : Nat) :
    Except ClientError (Option (List (Uuid × V))) :=
  match get_device_schemas d serial with
  | .error e => .error e
  | .ok none => .ok none
  | .ok (some schemas) =>
    match schemas.topics_out.find? (fun t => t.path == path) with
    | none => .ok none
    | some schema =>
      match d.topics ⟨serial, path, schema.key, count⟩ with
      | .error e => .error (ClientError.ofHostErr e)
      | .ok none => .ok none
      | .ok (some raws) =>
        match raws.mapM (fun tm =>
            match dynDec schema.ty tm.msg with
            | .error _ => (Except.error ClientError.Encoding : Except ClientError (Uuid × V))
            | .ok v => Except.ok (tm.uuidv7, v)) with
        | .error e => .error e
        | .ok res => .ok (some res)

/-- Model of `PoststationClient::proxy_endpoint` (typed).  `Epath`, `EreqKey`,
`ErespKey` are the compile-time constants `E::PATH`, `E::REQ_KEY`,
`E::RESP_KEY`; `ser` / `deser` model `postcard::to_stdvec` /
`postcard::from_bytes` for the endpoint types.  The second component
records the `ProxyRequest` handed to `send_resp::<ProxyEndpoint>`
(`none` when the function returns before issuing one). -/
def proxy_endpoint {α β : Type} (d : Daemon) (Epath : String) (EreqKey ErespKey : Key)
    (ser : α → Option (List Byte)) (deser : List Byte → Option β)
    (serial seq_no : Nat) (body : α) :
    Except ClientError β × Option ProxyRequest :=
  match get_device_schemas d serial with
  | .error e => (.error e, none)
  | .ok none => (.error (.Server "endpoint not found"), none)
  | .ok (some schemas) =>
    match schemas.endpoints.find? (fun e =>
        e.path == Epath && e.req_key == EreqKey && e.resp_key == ErespKey) with
    | none => (.error (.Server "endpoint not found"), none)
    | some schema =>
      match ser body with
      | none => (.error .Encoding, none)
      | some bytes =>
        let req : ProxyRequest :=
          ⟨serial, schema.path, schema.req_key, schema.resp_key, seq_no, bytes⟩
        match d.proxy req with
        | .error e => (.error (ClientError.ofHostErr e), some req)
        | .ok (.Ok _ _ b) =>
          match deser b with
          | some v => (.ok v, some req)
          | none => (.error .Encoding, some req)
        | .ok (.WireErr _ _ b) =>
          (.error (.Remote ("WireErr: " ++ b.debugStr)), some req)
        | .ok (.OtherErr e) =>
          (.error (.Remote ("Other Server Err: " ++ squote ++ e ++ squote)), some req)

/-- Model of `PoststationClient::proxy_endpoint_json` (dynamic).  Note the
`let Ok(Some(schemas)) = ... else` pattern: any failure of the schema
fetch becomes `Server("endpoint not found")`.  Resolution requires a
path match only; `dynEnc` / `dynDec` model `postcard_dyn`
encode/decode against the reported schema trees. -/
def proxy_endpoint_json {V : Type} (d : Daemon)
    (dynEnc : SchemaTy → V → Option (List Byte))
    (dynDec : SchemaTy → List Byte → Except String V)
    (serial : Nat) (path : String) (seq_no : Nat) (body : V) :
    Except ClientError V × Option ProxyRequest :=
  match d.schemas serial with
  | .error _ => (.error (.Server "endpoint not found"), none)
  | .ok none => (.error (.Server "endpoint not found"), none)
  | .ok (some schemas) =>
    match schemas.endpoints.find? (fun e => e.path == path) with
    | none => (.error (.Server "endpoint not found"), none)
    | some schema =>
      match dynEnc schema.req_ty body with
      | none =>
        (.error (.Dynamic "provided JSON does not match the expected schema for this endpoint"),
          none)
      | some bytes =>
        let req : ProxyRequest :=
          ⟨serial, schema.path, schema.req_key, schema.resp_key, seq_no, bytes⟩
        match d.proxy req with
        | .error e => (.error (ClientError.ofHostErr e), some req)
        | .ok (.Ok _ _ b) =>
          match dynDec schema.resp_ty b with
          | .ok v => (.ok v, some req)
          | .error e =>
            (.error (.Dynamic ("Decode error: " ++ squote ++ e ++ squote)), some req)
        | .ok (.WireErr _ _ b) =>
          (.error (.Remote ("WireErr: " ++ b.debugStr)), some req)
        | .ok (.OtherErr e) =>
          (.error (.Remote ("Other Server Err: " ++ squote ++ e ++ squote)), some req)

/-- Model of `PoststationClient::publish_topic_json`.  As in the other `_json`
operations, any failure of the schema fetch becomes
`Server("topic not found")`; resolution is by path over `topics_in`. -/
def publish_topic_json {V : Type} (d : Daemon)
    (dynEnc : SchemaTy → V → Option (List Byte))
    (serial : Nat) (path : String) (seq_no : Nat) (body : V) :
    Except ClientError Unit :=
  match d.schemas serial with
  | .error _ => .error (.Server "topic not found")
  | .ok none => .error (.Server "topic not found")
  | .ok (some schemas) =>
    match schemas.topics_in.find? (fun e => e.path == path) with
    | none => .error (.Server "topic not found")
    | some schema =>
      match dynEnc schema.ty body with
      | none => .error (.Dynamic "provided JSON does not match the schema for this topic")
      | some bytes =>
        match d.publish ⟨serial, schema.path, schema.key, seq_no, bytes⟩ with
        | .error e => .error (ClientError.ofHostErr e)
        | .ok .Sent => .ok ()
        | .ok (.OtherErr e) => .error (.Server e)

/-- Model of `PoststationClient::publish_topic` (typed): resolution requires path
match and exact key match over `topics_in`; the schema fetch uses the
same `let Ok(Some(..)) = .. else` pattern as the json variant. -/
def publish_topic {α : Type} (d : Daemon) (Tpath : String) (TtopicKey : Key)
    (ser : α → Option (List Byte))
    (serial : Nat) (seq_no : Nat) (body : α) :
    Except ClientError Unit :=
  match d.schemas serial with
  | .error _ => .error (.Server "topic not found")
  | .ok none => .error (.Server "topic not found")
  | .ok (some schemas) =>
    match schemas.topics_in.find? (fun t => t.path == Tpath && t.key == TtopicKey) with
    | none => .error (.Server "topic not found")
    | some schema =>
      match ser body with
      | none => .error .Encoding
      | some bytes =>
        match d.publish ⟨serial, schema.path, schema.key, seq_no, bytes⟩ with
        | .error e => .error (ClientError.ofHostErr e)
        | .ok .Sent => .ok ()
        | .ok (.OtherErr e) => .error (.Server e)

/-- The `JsonStreamListener` handle: the stream id returned by
`StartStream` and the topic schema used to decode messages.  The live
subscription is modelled by the item list passed to `recv`. -/
structure JsonStreamListener where
  stream_id : Uuid
  schema : TopicReport
  deriving DecidableEq, Repr

/-- The typed `StreamListener<T>` handle (the `PhantomData` carries no
data; the decoder is passed to `recv`). -/
structure StreamListener where
  stream_id : Uuid
  deriving DecidableEq, Repr

/-- Model of `PoststationClient::stream_topic_json`: resolve the path over
`topics_out` (schema-fetch failures become `Server("topic not found")`),
subscribe to the shared fanout topic (`subscribeOk` models
`subscribe_multi` succeeding), then request `StartStream` and translate
its reply. -/
def stream_topic_json (d : Daemon) (subscribeOk : Bool) (serial : Nat) (path : String) :
    Except ClientError JsonStreamListener :=
  match d.schemas serial with
  | .error _ => .error (.Server "topic not found")
  | .ok none => .error (.Server "topic not found")
  | .ok (some schemas) =>
    match schemas.topics_out.find? (fun e => e.path == path) with
    | none => .error (.Server "topic not found")
    | some schema =>
      if !subscribeOk then .error .ConnectionClosed
      else
        match d.startStream ⟨serial, path, schema.key⟩ with
        | .error e => .error (ClientError.ofHostErr e)
        | .ok (.Started id) => .ok ⟨id, schema⟩
        | .ok .DeviceDisconnected => .error (.Server "Device Disconnected")
        | .ok .NoDeviceKnown => .error (.Server "No Device Known")
        | .ok .NoSuchTopic => .error (.Server "No Such Topic")

/-- Model of `PoststationClient::stream_topic` (typed): as the json variant but
resolution requires path and key match (`T::PATH`, `T::TOPIC_KEY`). -/
def stream_topic (d : Daemon) (subscribeOk : Bool) (Tpath : String) (TtopicKey : Key)
    (serial : Nat) : Except ClientError StreamListener :=
  match d.schemas serial with
  | .error _ => .error (.Server "topic not found")
  | .ok none => .error (.Server "topic not found")
  | .ok (some schemas) =>
    match schemas.topics_out.find? (fun e => e.path == Tpath && e.key == TtopicKey) with
    | none => .error (.Server "topic not found")
    | some schema =>
      if !subscribeOk then .error .ConnectionClosed
      else
        match d.startStream ⟨serial, Tpath, schema.key⟩ with
        | .error e => .error (ClientError.ofHostErr e)
        | .ok (.Started id) => .ok ⟨id⟩
        | .ok .DeviceDisconnected => .error (.Server "Device Disconnected")
        | .ok .NoDeviceKnown => .error (.Server "No Device Known")
        | .ok .NoSuchTopic => .error (.Server "No Such Topic")

/-- Model of `JsonStreamListener::recv`: skip lag reports, skip fanout messages
whose embedded stream id differs from the listener id, skip messages
that fail the dynamic decode, return the first decoded matching
message; `none` when the subscription ends (`IoClosed`). -/
def JsonStreamListener.recv {V : Type} (L : JsonStreamListener)
    (dynDec : SchemaTy → List Byte → Except String V) :
    List SubRecv → Option V
  | [] => none
  | .lagged _ :: rest => L.recv dynDec rest
  | .msg m :: rest =>
    if m.stream_id != L.stream_id then L.recv dynDec rest
    else
      match dynDec L.schema.ty m.msg with
      | .error _ => L.recv dynDec rest
      | .ok v => some v

/-- Model of `StreamListener::<T>::recv`: as the json variant, with the typed
`postcard::from_bytes` decoder. -/
def StreamListener.recv {α : Type} (L : StreamListener)
    (deser : List Byte → Option α) :
    List SubRecv → Option α
  | [] => none
  | .lagged _ :: rest => L.recv deser rest
  | .msg m :: rest =>
    if m.stream_id != L.stream_id then L.recv deser rest
    else
      match deser m.msg with
      | none => L.recv deser rest
      | some v => some v

/-! ### Connect paths -/

/-- The `ConnectError` enum of `lib.rs`. -/
inductive ConnectError where
  | CaCertificate
  | Connection
  | Protocol
  deriving DecidableEq, Repr

/-- The value returned by a successful connect (the `PoststationClient`
handle; its `HostClient` internals are not modelled). -/
inductive PoststationClient where
  | mk
  deriving DecidableEq, Repr

/-- Outcomes of the fallible establishment steps of `connect_insecure`,
in source order, plus the daemon side of the ping endpoint:
`pingReply t` is the outcome of `send_resp::<PingEndpoint>(&t)`. -/
structure ConnAttempt where
  tcpConnectOk : Bool
  peerAddrOk : Bool
  setNodelayOk : Bool
  pingReply : Nat → Except HostErr Nat

/-- Outcomes of the fallible establishment steps of
`connect_with_ca_pem`, in source order. -/
structure TlsConnAttempt where
  caFileOk : Bool
  caAddOk : Bool
  tcpConnectOk : Bool
  setNodelayOk : Bool
  peerAddrOk : Bool
  tlsHandshakeOk : Bool
  pingReply : Nat → Except HostErr Nat

/-- Model of `connect_insecure`: TCP connect to loopback, `peer_addr`,
`set_nodelay(true)`, build the wire, then send a ping with the literal
token `42` and require the same token back; a transport failure or a
mismatched token is `ConnectError::Protocol`.  The second component
records the argument passed to `set_nodelay` (`none` if the call was
never reached). -/
def connect_insecure (a : ConnAttempt) :
    Except ConnectError PoststationClient × Option Bool :=
  if !a.tcpConnectOk then (.error .Connection, none)
  else if !a.peerAddrOk then (.error .Connection, none)
  else if !a.setNodelayOk then (.error .Connection, some true)
  else
    match a.pingReply 42 with
    | .error _ => (.error .Protocol, some true)
    | .ok res => if res != 42 then (.error .Protocol, some true) else (.ok .mk, some true)

/-- Model of `connect_with_ca_pem`: load and install the CA certificate, TCP
connect, `set_nodelay(false)`, `peer_addr`, TLS handshake, build the
wire, then the same ping gate with the literal token `42`. -/
def connect_with_ca_pem (a : TlsConnAttempt) :
    Except ConnectError PoststationClient × Option Bool :=
  if !a.caFileOk then (.error .CaCertificate, none)
  else if !a.caAddOk then (.error .CaCertificate, none)
  else if !a.tcpConnectOk then (.error .Connection, none)
  else if !a.setNodelayOk then (.error .Connection, some false)
  else if !a.peerAddrOk then (.error .Connection, some false)
  else if !a.tlsHandshakeOk then (.error .Connection, some false)
  else
    match a.pingReply 42 with
    | .error _ => (.error .Protocol, some false)
    | .ok res => if res != 42 then (.error .Protocol, some false) else (.ok .mk, some false)

/-! ### Splitting byte streams at the first `0x00` -/

theorem takeWhile_append_left {α : Type} {p : α → Bool} {l : List α} (r : List α)
    (h : l.dropWhile p ≠ []) : (l ++ r).takeWhile p = l.takeWhile p := by
  induction l with
  | nil => simp at h
  | cons a t ih =>
    simp only [List.dropWhile_cons] at h
    by_cases hp : p a
    · rw [if_pos hp] at h
      simp [List.takeWhile_cons, hp, ih h]
    · simp [List.takeWhile_cons, hp]

theorem dropWhile_append_left {α : Type} {p : α → Bool} {l : List α} (r : List α)
    (h : l.dropWhile p ≠ []) : (l ++ r).dropWhile p = l.dropWhile p ++ r := by
  induction l with
  | nil => simp at h
  | cons a t ih =>
    simp only [List.dropWhile_cons] at h ⊢
    by_cases hp : p a
    · rw [if_pos hp] at h
      simp [hp, ih h]
    · simp [hp]

theorem takeWhile_append_all {α : Type} {p : α → Bool} {l : List α} (r : List α)
    (h : ∀ a ∈ l, p a) : (l ++ r).takeWhile p = l ++ r.takeWhile p := by
  induction l with
  | nil => simp
  | cons a t ih =>
    have hpa : p a := h a (List.mem_cons_self a t)
    simp only [List.cons_append, List.takeWhile_cons, hpa, if_true]
    rw [ih (fun x hx => h x (List.mem_cons_of_mem a hx))]

theorem dropWhile_append_all {α : Type} {p : α → Bool} {l : List α} (r : List α)
    (h : ∀ a ∈ l, p a) : (l ++ r).dropWhile p = r.dropWhile p := by
  induction l with
  | nil => simp
  | cons a t ih =>
    have hpa : p a := h a (List.mem_cons_self a t)
    simp only [List.cons_append, List.dropWhile_cons, hpa, if_true]
    exact ih (fun x hx => h x (List.mem_cons_of_mem a hx))

theorem head_dropWhile_false {α : Type} {p : α → Bool} :
    ∀ {l : List α} {b : α} {r : List α}, l.dropWhile p = b :: r → p b = false := by
  intro l
  induction l with
  | nil => intro b r h; simp at h
  | cons a t ih =>
    intro b r h
    simp only [List.dropWhile_cons] at h
    by_cases hp : p a
    · rw [if_pos hp] at h
      exact ih h
    · rw [if_neg hp] at h
      cases h
      simpa using hp

theorem takeWhile_nz_append (e r : List Byte) (he : ∀ b ∈ e, b ≠ 0) :
    (e ++ 0 :: r).takeWhile (fun b => b != 0) = e := by
  rw [takeWhile_append_all (0 :: r) (fun a ha => by simpa using he a ha)]
  simp [List.takeWhile_cons]

theorem dropWhile_nz_append (e r : List Byte) (he : ∀ b ∈ e, b ≠ 0) :
    (e ++ 0 :: r).dropWhile (fun b => b != 0) = 0 :: r := by
  rw [dropWhile_append_all (0 :: r) (fun a ha => by simpa using he a ha)]
  simp [List.dropWhile_cons]

theorem dropWhile_nz_of_all {l : List Byte} (h : ∀ b ∈ l, b ≠ 0) :
    l.dropWhile (fun b => b != 0) = [] :=
  List.dropWhile_eq_nil_iff.mpr (fun x hx => by simpa using h x hx)

theorem drop_length_takeWhile {α : Type} (p : α → Bool) (l : List α) :
    l.drop (l.takeWhile p).length = l.dropWhile p := by
  have h := List.drop_left (l.takeWhile p) (l.dropWhile p)
  rw [List.takeWhile_append_dropWhile] at h
  exact h

/-! ### Unfolding equations for the framer state machine -/

theorem maxRun_nil_case {l : List Byte} (h : l.dropWhile (fun b => b != 0) = []) :
    maxRun l = (l.takeWhile (fun b => b != 0)).length := by
  rw [maxRun.eq_def]
  split <;> simp_all

theorem maxRun_cons_case {l : List Byte} {b : Byte} {tail : List Byte}
    (h : l.dropWhile (fun b => b != 0) = b :: tail) :
    maxRun l = max (l.takeWhile (fun b => b != 0)).length (maxRun tail) := by
  rw [maxRun.eq_def]
  split <;> simp_all

theorem takeWhile_length_le_maxRun (l : List Byte) :
    (l.takeWhile (fun b => b != 0)).length ≤ maxRun l := by
  rw [maxRun.eq_def]
  split
  · exact Nat.le_refl _
  · exact Nat.le_max_left _ _

theorem rxPure_nil_case {data : List Byte} (h : data.dropWhile (fun b => b != 0) = []) :
    rxPure data = [] := by
  rw [rxPure.eq_def]
  split <;> simp_all

theorem rxPure_cons_case {data : List Byte} {b : Byte} {tail : List Byte}
    (h : data.dropWhile (fun b => b != 0) = b :: tail) :
    rxPure data = rxDecodeEvent (data.takeWhile (fun b => b != 0)) :: rxPure tail := by
  rw [rxPure.eq_def]
  split <;> simp_all

theorem rxRun_overflow_case {buf : List Byte} {chunks : List (List Byte)}
    (h : buf.length > rxCap) :
    rxRun buf chunks = RxEvent.overflow :: rxRun [] chunks := by
  rw [rxRun.eq_def, if_pos h]

theorem rxRun_split_case {buf : List Byte} {chunks : List (List Byte)} {b : Byte}
    {tail : List Byte} (h1 : ¬buf.length > rxCap)
    (h : buf.dropWhile (fun b => b != 0) = b :: tail) :
    rxRun buf chunks = rxDecodeEvent (buf.takeWhile (fun b => b != 0)) :: rxRun tail chunks := by
  rw [rxRun.eq_def, if_neg h1]
  split <;> simp_all

theorem rxRun_read_case {buf : List Byte} {c : List Byte} {cs : List (List Byte)}
    (h1 : ¬buf.length > rxCap) (h : buf.dropWhile (fun b => b != 0) = []) :
    rxRun buf (c :: cs) = rxRun (buf ++ c) cs := by
  rw [rxRun.eq_def, if_neg h1]
  split <;> simp_all

theorem rxRun_end_case {buf : List Byte} (h1 : ¬buf.length > rxCap)
    (h : buf.dropWhile (fun b => b != 0) = []) :
    rxRun buf [] = [] := by
  rw [rxRun.eq_def, if_neg h1]
  split <;> simp_all

/-! ### COBS encode/decode facts -/

theorem blk_eq_takeWhile {l : List Byte}
    (h : ((l.takeWhile (fun b => b != 0)).take 254).length ≠ 254) :
    (l.takeWhile (fun b => b != 0)).take 254 = l.takeWhile (fun b => b != 0) := by
  apply List.take_of_length_le
  rw [List.length_take] at h
  omega

theorem blk_full_eq_take {l : List Byte}
    (h : ((l.takeWhile (fun b => b != 0)).take 254).length = 254) :
    (l.takeWhile (fun b => b != 0)).take 254 = l.take 254 := by
  have hp : l.takeWhile (fun b => b != 0) =
      l.take (l.takeWhile (fun b => b != 0)).length :=
    List.prefix_iff_eq_take.mp (List.takeWhile_prefix _)
  rw [List.length_take] at h
  have h254 : 254 ≤ (l.takeWhile (fun b => b != 0)).length := by omega
  conv_lhs => rw [hp]
  rw [List.take_take, Nat.min_eq_left h254]

theorem cobsEncode_full_nil {l : List Byte}
    (h : ((l.takeWhile (fun b => b != 0)).take 254).length = 254) (h2 : l.drop 254 = []) :
    cobsEncode l = 255 :: (l.takeWhile (fun b => b != 0)).take 254 := by
  rw [cobsEncode.eq_def]
  dsimp only
  rw [if_pos h, dif_pos h2, List.append_nil]

theorem cobsEncode_full_cons {l : List Byte}
    (h : ((l.takeWhile (fun b => b != 0)).take 254).length = 254) (h2 : l.drop 254 ≠ []) :
    cobsEncode l =
      255 :: ((l.takeWhile (fun b => b != 0)).take 254 ++ cobsEncode (l.drop 254)) := by
  rw [cobsEncode.eq_def]
  dsimp only
  rw [if_pos h, dif_neg h2, List.cons_append]

theorem cobsEncode_part_nil {l : List Byte}
    (h : ((l.takeWhile (fun b => b != 0)).take 254).length ≠ 254)
    (h2 : l.drop ((l.takeWhile (fun b => b != 0)).take 254).length = []) :
    cobsEncode l =
      (((l.takeWhile (fun b => b != 0)).take 254).length + 1) ::
        (l.takeWhile (fun b => b != 0)).take 254 := by
  rw [cobsEncode.eq_def]
  dsimp only
  rw [if_neg h]
  split
  · rfl
  · rename_i hd r heq
    rw [h2] at heq
    simp at heq

theorem cobsEncode_part_cons {l : List Byte} {hd : Byte} {r : List Byte}
    (h : ((l.takeWhile (fun b => b != 0)).take 254).length ≠ 254)
    (h2 : l.drop ((l.takeWhile (fun b => b != 0)).take 254).length = hd :: r) :
    cobsEncode l =
      (((l.takeWhile (fun b => b != 0)).take 254).length + 1) ::
        ((l.takeWhile (fun b => b != 0)).take 254 ++ cobsEncode r) := by
  rw [cobsEncode.eq_def]
  dsimp only
  rw [if_neg h]
  split
  · rename_i heq
    rw [h2] at heq
    simp at heq
  · rename_i hd2 r2 heq
    rw [h2] at heq
    injection heq with ha hb
    subst hb
    rw [List.cons_append]

theorem cobsEncode_ne_nil (l : List Byte) : cobsEncode l ≠ [] := by
  rw [cobsEncode.eq_def]
  dsimp only
  split
  · simp
  · split <;> simp

theorem cobsEncode_ne_zero : ∀ (l : List Byte), ∀ b ∈ cobsEncode l, b ≠ 0 := by
  intro l
  induction l using cobsEncode.induct with
  | case1 x blk hlen ih =>
    by_cases h2 : x.drop 254 = []
    · rw [cobsEncode_full_nil hlen h2]
      intro b hb
      rcases List.mem_cons.mp hb with hb | hb
      · subst hb; decide
      · have := List.mem_takeWhile_imp (List.take_subset 254 _ hb)
        simpa using this
    · rw [cobsEncode_full_cons hlen h2]
      intro b hb
      rcases List.mem_cons.mp hb with hb | hb
      · subst hb; decide
      · rcases List.mem_append.mp hb with hb | hb
        · have := List.mem_takeWhile_imp (List.take_subset 254 _ hb)
          simpa using this
        · exact ih h2 b hb
  | case2 x blk hlen h2 =>
    rw [cobsEncode_part_nil hlen h2]
    intro b hb
    rcases List.mem_cons.mp hb with hb | hb
    · subst hb; exact Nat.succ_ne_zero _
    · have := List.mem_takeWhile_imp (List.take_subset 254 _ hb)
      simpa using this
  | case3 x blk hlen hd r h2 ih =>
    rw [cobsEncode_part_cons hlen h2]
    intro b hb
    rcases List.mem_cons.mp hb with hb | hb
    · subst hb; exact Nat.succ_ne_zero _
    · rcases List.mem_append.mp hb with hb | hb
      · have := List.mem_takeWhile_imp (List.take_subset 254 _ hb)
        simpa using this
      · exact ih b hb

theorem cobsDecode_cobsEncode (l : List Byte) : cobsDecode (cobsEncode l) = some l := by
  induction l using cobsEncode.induct with
  | case1 x blk hlen ih =>
    have hlen' : ((x.takeWhile (fun b => b != 0)).take 254).length = 254 := hlen
    have hblk : (x.takeWhile (fun b => b != 0)).take 254 = x.take 254 :=
      blk_full_eq_take hlen'
    by_cases h2 : x.drop 254 = []
    · have hx : x = (x.takeWhile (fun b => b != 0)).take 254 := by
        conv_lhs => rw [← List.take_append_drop 254 x]
        rw [h2, List.append_nil, ← hblk]
      rw [cobsEncode_full_nil hlen' h2, cobsDecode.eq_def]
      dsimp only
      rw [if_neg (by decide : ¬((255 : Byte) = 0))]
      rw [if_neg (by rw [hlen']; decide)]
      rw [if_pos (List.drop_eq_nil_of_le (by rw [hlen']))]
      rw [List.take_of_length_le (by rw [hlen'])]
      rw [← hx]
    · rw [cobsEncode_full_cons hlen' h2, cobsDecode.eq_def]
      dsimp only
      rw [if_neg (by decide : ¬((255 : Byte) = 0))]
      rw [if_neg (by
        simp only [List.length_append, hlen']
        omega)]
      have hdrop :
          ((x.takeWhile (fun b => b != 0)).take 254 ++ cobsEncode (x.drop 254)).drop
            (255 - 1) = cobsEncode (x.drop 254) := by
        have hdl := List.drop_left ((x.takeWhile (fun b => b != 0)).take 254)
          (cobsEncode (x.drop 254))
        rw [hlen'] at hdl
        exact hdl
      rw [if_neg (by rw [hdrop]; exact cobsEncode_ne_nil _)]
      rw [if_pos rfl]
      rw [hdrop, ih h2]
      have htake :
          ((x.takeWhile (fun b => b != 0)).take 254 ++ cobsEncode (x.drop 254)).take
            (255 - 1) = (x.takeWhile (fun b => b != 0)).take 254 := by
        have htl := List.take_left ((x.takeWhile (fun b => b != 0)).take 254)
          (cobsEncode (x.drop 254))
        rw [hlen'] at htl
        exact htl
      rw [Option.map_some', htake, hblk, List.take_append_drop]
  | case2 x blk hlen h2 =>
    have hlen' : ((x.takeWhile (fun b => b != 0)).take 254).length ≠ 254 := hlen
    have h2' : x.drop ((x.takeWhile (fun b => b != 0)).take 254).length = [] := h2
    have hpre : (x.takeWhile (fun b => b != 0)).take 254 =
        x.take ((x.takeWhile (fun b => b != 0)).take 254).length :=
      List.prefix_iff_eq_take.mp
        ((List.take_prefix 254 _).trans (List.takeWhile_prefix _))
    have hx : x = (x.takeWhile (fun b => b != 0)).take 254 := by
      conv_lhs =>
        rw [← List.take_append_drop ((x.takeWhile (fun b => b != 0)).take 254).length x]
      rw [h2', List.append_nil, ← hpre]
    rw [cobsEncode_part_nil hlen' h2', cobsDecode.eq_def]
    dsimp only
    rw [if_neg (Nat.succ_ne_zero _)]
    rw [if_neg (by omega)]
    rw [if_pos (by
      simp only [Nat.add_sub_cancel]
      exact List.drop_length _)]
    simp only [Nat.add_sub_cancel, List.take_length]
    rw [← hx]
  | case3 x blk hlen hd r h2 ih =>
    have hlen' : ((x.takeWhile (fun b => b != 0)).take 254).length ≠ 254 := hlen
    have h2' : x.drop ((x.takeWhile (fun b => b != 0)).take 254).length = hd :: r := h2
    have hblkTW : (x.takeWhile (fun b => b != 0)).take 254 = x.takeWhile (fun b => b != 0) :=
      blk_eq_takeWhile hlen'
    have hdw : x.dropWhile (fun b => b != 0) = hd :: r := by
      rw [← drop_length_takeWhile (fun b => b != 0) x]
      rw [← hblkTW]
      exact h2'
    have hd0 : hd = 0 := by
      have := head_dropWhile_false hdw
      simpa using this
    subst hd0
    have hx : x = (x.takeWhile (fun b => b != 0)).take 254 ++ 0 :: r := by
      conv_lhs => rw [← List.takeWhile_append_dropWhile (fun b => b != 0) x]
      rw [hdw, hblkTW]
    rw [cobsEncode_part_cons hlen' h2', cobsDecode.eq_def]
    dsimp only
    rw [if_neg (Nat.succ_ne_zero _)]
    rw [if_neg (by
      simp only [List.length_append]
      omega)]
    have hdrop :
        ((x.takeWhile (fun b => b != 0)).take 254 ++ cobsEncode r).drop
          (((x.takeWhile (fun b => b != 0)).take 254).length + 1 - 1) = cobsEncode r := by
      simpa using List.drop_left ((x.takeWhile (fun b => b != 0)).take 254) (cobsEncode r)
    rw [if_neg (by rw [hdrop]; exact cobsEncode_ne_nil _)]
    have hlt : ((x.takeWhile (fun b => b != 0)).take 254).length < 254 := by
      have := List.length_take_le 254 (x.takeWhile (fun b => b != 0))
      omega
    rw [if_neg (show ¬(((x.takeWhile (fun b => b != 0)).take 254).length + 1 = 255) by omega)]
    rw [hdrop, ih]
    have htake :
        ((x.takeWhile (fun b => b != 0)).take 254 ++ cobsEncode r).take
          (((x.takeWhile (fun b => b != 0)).take 254).length + 1 - 1) =
          (x.takeWhile (fun b => b != 0)).take 254 := by
      simpa using List.take_left ((x.takeWhile (fun b => b != 0)).take 254) (cobsEncode r)
    rw [Option.map_some', htake, ← hx]

/-! ### The receive loop on streams of well-formed frames -/

theorem rxDecodeEvent_encode (p : List Byte) :
    rxDecodeEvent (cobsEncode p) = RxEvent.frame p := by
  rw [rxDecodeEvent, cobsDecode_cobsEncode]

theorem rxPure_nil : rxPure [] = [] := rxPure_nil_case (by simp)

theorem rxPure_seg_cons (e r : List Byte) (he : ∀ b ∈ e, b ≠ 0) :
    rxPure (e ++ 0 :: r) = rxDecodeEvent e :: rxPure r := by
  rw [rxPure_cons_case (dropWhile_nz_append e r he), takeWhile_nz_append e r he]

theorem flatten_map_sendFrame_cons (p : List Byte) (ps : List (List Byte)) :
    (List.map sendFrame (p :: ps)).flatten =
      cobsEncode p ++ 0 :: (List.map sendFrame ps).flatten := by
  simp [sendFrame]

theorem rxPure_frames (ps : List (List Byte)) :
    rxPure ((ps.map sendFrame).flatten) = ps.map RxEvent.frame := by
  induction ps with
  | nil => simp [rxPure_nil]
  | cons p rest ih =>
    rw [flatten_map_sendFrame_cons,
      rxPure_seg_cons _ _ (cobsEncode_ne_zero p), ih, rxDecodeEvent_encode]
    rfl

theorem maxRun_nil : maxRun [] = 0 := by
  rw [maxRun_nil_case (by simp)]
  simp

theorem maxRun_seg_cons (e r : List Byte) (he : ∀ b ∈ e, b ≠ 0) :
    maxRun (e ++ 0 :: r) = max e.length (maxRun r) := by
  rw [maxRun_cons_case (dropWhile_nz_append e r he), takeWhile_nz_append e r he]

theorem maxRun_frames_le (ps : List (List Byte)) (n : Nat)
    (h : ∀ p ∈ ps, (cobsEncode p).length ≤ n) :
    maxRun ((ps.map sendFrame).flatten) ≤ n := by
  induction ps with
  | nil => simp [maxRun_nil]
  | cons p rest ih =>
    rw [flatten_map_sendFrame_cons, maxRun_seg_cons _ _ (cobsEncode_ne_zero p)]
    have h1 := h p (List.mem_cons_self p rest)
    have h2 := ih (fun q hq => h q (List.mem_cons_of_mem p hq))
    omega

/-- Chunk invariance: as long as the accumulator stays under the cap
(every `0x00`-free run of the stream leaves room for one more read),
the receive loop produces exactly the events of the fully-buffered
framing, regardless of how the stream is cut into reads. -/
theorem rxRun_eq_rxPure : ∀ (buf : List Byte) (chunks : List (List Byte)),
    (∀ c ∈ chunks, c.length ≤ rxChunkMax) → buf.length ≤ rxCap →
    maxRun (buf ++ chunks.flatten) + rxChunkMax ≤ rxCap →
    rxRun buf chunks = rxPure (buf ++ chunks.flatten) := by
  intro buf chunks
  induction buf, chunks using rxRun.induct with
  | case1 buf chunks hcap ih =>
    intro _ hlen _
    omega
  | case2 buf chunks hcap hd tail hdw ih =>
    intro hc hlen hmax
    have hne : buf.dropWhile (fun b => b != 0) ≠ [] := by rw [hdw]; simp
    have hdwa : (buf ++ chunks.flatten).dropWhile (fun b => b != 0) =
        hd :: (tail ++ chunks.flatten) := by
      rw [dropWhile_append_left _ hne, hdw]
      rfl
    rw [rxRun_split_case hcap hdw, rxPure_cons_case hdwa,
      takeWhile_append_left _ hne]
    have htail : tail.length < buf.length := by
      have h1 : (buf.dropWhile (fun b => b != 0)).length ≤ buf.length := by
        conv_rhs => rw [← List.takeWhile_append_dropWhile (fun b => b != 0) buf]
        simp only [List.length_append]
        omega
      rw [hdw] at h1
      simp only [List.length_cons] at h1
      omega
    have hmax2 : maxRun (tail ++ chunks.flatten) + rxChunkMax ≤ rxCap := by
      have := maxRun_cons_case hdwa
      omega
    rw [ih hc (by omega) hmax2]
  | case3 buf hcap hdw hdw2 =>
    intro _ _ _
    rw [rxRun_end_case hcap hdw]
    rw [List.flatten_nil, List.append_nil, rxPure_nil_case hdw]
  | case4 buf hcap hdw c cs hdw2 ih =>
    intro hc hlen hmax
    rw [rxRun_read_case hcap hdw]
    have hjoin : buf ++ (c :: cs).flatten = (buf ++ c) ++ cs.flatten := by
      rw [List.flatten_cons, ← List.append_assoc]
    have hbufz : ∀ b ∈ buf, (fun b => b != 0) b := List.dropWhile_eq_nil_iff.mp hdw
    have hbuflen : buf.length ≤ maxRun (buf ++ (c :: cs).flatten) := by
      have h1 : (buf ++ (c :: cs).flatten).takeWhile (fun b => b != 0) =
          buf ++ ((c :: cs).flatten).takeWhile (fun b => b != 0) :=
        takeWhile_append_all _ hbufz
      have h2 := takeWhile_length_le_maxRun (buf ++ (c :: cs).flatten)
      rw [h1] at h2
      simp only [List.length_append] at h2
      omega
    have hclen : c.length ≤ rxChunkMax := hc c (List.mem_cons_self c cs)
    have hlen2 : (buf ++ c).length ≤ rxCap := by
      simp only [List.length_append]
      omega
    have hmax2 : maxRun ((buf ++ c) ++ cs.flatten) + rxChunkMax ≤ rxCap := by
      rw [← hjoin]
      omega
    rw [hjoin, ih (fun c2 hc2 => hc c2 (List.mem_cons_of_mem c hc2)) hlen2 hmax2]

/-- Overflow phase: feeding a `0x00`-free region of more than
`rxCap + rxChunkMax` bytes makes the cap check fire exactly at the
first loop pass where the accumulator exceeds `rxCap`: the accumulator
(a prefix of the region, of `k` bytes) is cleared, `RxOverflow` is
returned once, and the loop resumes on the remaining stream. -/
theorem rxRun_overflow_phase :
    ∀ (chunks : List (List Byte)) (buf Z R : List Byte),
    (∀ c ∈ chunks, c.length ≤ rxChunkMax) →
    (∀ b ∈ buf, b ≠ 0) → buf.length ≤ rxCap →
    buf ++ chunks.flatten = Z ++ 0 :: R →
    (∀ b ∈ Z, b ≠ 0) →
    rxCap + rxChunkMax ≤ Z.length →
    ∃ k n, rxCap < k ∧ k ≤ rxCap + rxChunkMax ∧
      (chunks.drop n).flatten = Z.drop k ++ 0 :: R ∧
      (∀ c ∈ chunks.drop n, c.length ≤ rxChunkMax) ∧
      rxRun buf chunks = RxEvent.overflow :: rxRun [] (chunks.drop n) := by
  intro chunks
  induction chunks with
  | nil =>
    intro buf Z R hc hbz hblen heq hZ hZlen
    exfalso
    have h0 : (0 : Byte) ∈ buf := by
      rw [show buf = Z ++ 0 :: R by simpa using heq]
      simp
    exact hbz 0 h0 rfl
  | cons c cs ih =>
    intro buf Z R hc hbz hblen heq hZ hZlen
    have hdw : buf.dropWhile (fun b => b != 0) = [] := dropWhile_nz_of_all hbz
    have hncap : ¬buf.length > rxCap := by omega
    rw [rxRun_read_case hncap hdw]
    have heq2 : (buf ++ c) ++ cs.flatten = Z ++ 0 :: R := by
      rw [List.append_assoc, ← List.flatten_cons]
      exact heq
    have hclen : c.length ≤ rxChunkMax := hc c (List.mem_cons_self c cs)
    by_cases hover : (buf ++ c).length > rxCap
    · refine ⟨(buf ++ c).length, 1, hover, ?_, ?_, ?_, ?_⟩
      · simp only [List.length_append]
        omega
      · have hdropk := congrArg (List.drop (buf ++ c).length) heq2
        rw [List.drop_left] at hdropk
        rw [List.drop_append_of_le_length (show (buf ++ c).length ≤ Z.length by
          simp only [List.length_append]
          omega)] at hdropk
        simpa using hdropk
      · intro c2 hc2
        exact hc c2 (List.mem_cons_of_mem c (by simpa using hc2))
      · rw [show (c :: cs).drop 1 = cs from rfl, rxRun_overflow_case hover]
    · have hbclen : (buf ++ c).length ≤ rxCap := by omega
      have hpref : buf ++ c = Z.take (buf ++ c).length := by
        have htk := congrArg (List.take (buf ++ c).length) heq2
        rw [List.take_left] at htk
        rw [List.take_append_of_le_length (show (buf ++ c).length ≤ Z.length by omega)] at htk
        exact htk
      have hbcz : ∀ b ∈ buf ++ c, b ≠ 0 := by
        intro b hb
        rw [hpref] at hb
        exact hZ b (List.take_subset _ _ hb)
      obtain ⟨k, n, h1, h2, h3, h4, h5⟩ :=
        ih (buf ++ c) Z R (fun c2 hc2 => hc c2 (List.mem_cons_of_mem c hc2))
          hbcz hbclen heq2 hZ hZlen
      refine ⟨k, n + 1, h1, h2, ?_, ?_, ?_⟩
      · rw [List.drop_succ_cons]
        exact h3
      · intro c2 hc2
        apply h4
        rw [← List.drop_succ_cons]
        exact hc2
      · rw [List.drop_succ_cons]
        exact h5

theorem flatten_replicate_replicate (m n : Nat) (v : Byte) :
    (List.replicate m (List.replicate n v)).flatten = List.replicate (m * n) v := by
  induction m with
  | zero => simp
  | succ m ih =>
    rw [List.replicate_succ, List.flatten_cons, ih, Nat.succ_mul, Nat.add_comm,
      List.replicate_add]

theorem cobsEncode_small {l : List Byte} (hz : ∀ b ∈ l, b ≠ 0) (hl : l.length ≤ 253) :
    cobsEncode l = (l.length + 1) :: l := by
  have htw : l.takeWhile (fun b => b != 0) = l :=
    List.takeWhile_eq_self_iff.mpr (fun x hx => by simpa using hz x hx)
  have hblk : (l.takeWhile (fun b => b != 0)).take 254 = l := by
    rw [htw]
    exact List.take_of_length_le (by omega)
  have hlen : ((l.takeWhile (fun b => b != 0)).take 254).length ≠ 254 := by
    rw [hblk]
    omega
  have h2 : l.drop ((l.takeWhile (fun b => b != 0)).take 254).length = [] := by
    rw [hblk]
    exact List.drop_length l
  rw [cobsEncode_part_nil hlen h2, hblk]

theorem rxDecodeEvent_ne_overflow (seg : List Byte) :
    rxDecodeEvent seg ≠ RxEvent.overflow := by
  cases h : cobsDecode seg <;> simp [rxDecodeEvent, h]

theorem count_overflow_frames (ps : List (List Byte)) :
    (ps.map RxEvent.frame).count RxEvent.overflow = 0 := by
  rw [List.count_eq_zero]
  intro h
  obtain ⟨p, _, hp⟩ := List.mem_map.mp h
  simp at hp

/-- C1: the framer send and receive algorithms are inverse over the
byte stream.  For every non-empty payload the sent frame is the COBS
encoding followed by a single `0x00` terminator and contains no `0x00`
before the terminator, `cobsDecode` inverts `cobsEncode`, and feeding
the concatenation of the sent frames to the receive loop, cut into
arbitrary read chunks (each within the 1024-byte read buffer, with
each frame small enough not to trip the 1 MiB accumulator cap), yields
exactly the original payloads, in order, with no spurious frames. -/
theorem framer_roundtrip_streaming
    (ps chunks : List (List Byte))
    (hne : ∀ p ∈ ps, p ≠ [])
    (hsz : ∀ p ∈ ps, (cobsEncode p).length + rxChunkMax ≤ rxCap)
    (hchunk : ∀ c ∈ chunks, c.length ≤ rxChunkMax)
    (hflat : chunks.flatten = (ps.map sendFrame).flatten) :
    (∀ p ∈ ps, cobsDecode (cobsEncode p) = some p ∧ sendFrame p = cobsEncode p ++ [0] ∧
      ∀ b ∈ cobsEncode p, b ≠ 0) ∧
    rxRun [] chunks = ps.map RxEvent.frame := by
  constructor
  · intro p hp
    exact ⟨cobsDecode_cobsEncode p, rfl, cobsEncode_ne_zero p⟩
  · have hcc : rxChunkMax ≤ rxCap := by decide
    have hmax : maxRun ([] ++ chunks.flatten) + rxChunkMax ≤ rxCap := by
      rw [List.nil_append, hflat]
      have := maxRun_frames_le ps (rxCap - rxChunkMax)
        (fun p hp => by have := hsz p hp; omega)
      omega
    rw [rxRun_eq_rxPure [] chunks hchunk (Nat.zero_le _) hmax,
      List.nil_append, hflat, rxPure_frames]

theorem framer_roundtrip_streaming_witness :
    rxRun [] [[2, 5, 0, 2], [7, 0]] =
      [RxEvent.frame [5], RxEvent.frame [7]] := by
  have h5 : cobsEncode [5] = [2, 5] := cobsEncode_small (by decide) (by decide)
  have h7 : cobsEncode [7] = [2, 7] := cobsEncode_small (by decide) (by decide)
  have hmain := framer_roundtrip_streaming [[5], [7]] [[2, 5, 0, 2], [7, 0]]
    (by decide)
    (by
      intro p hp
      rcases (by simpa using hp : p = [5] ∨ p = [7]) with rfl | rfl
      · rw [h5]; decide
      · rw [h7]; decide)
    (by decide)
    (by simp [sendFrame, h5, h7])
  exact hmain.2

/-- C2: if the receive accumulator grows beyond 1 MiB without a `0x00`
terminator (a `0x00`-free region longer than the cap plus one read,
here also short enough not to trip the cap twice), the receiver clears
the accumulator and fails with `RxOverflow` exactly once; afterwards it
resumes framing from the next byte after the next `0x00` of the
incoming stream: the not-yet-consumed tail of the region up to that
`0x00` is attempted as one (garbage) frame, and every following sent
frame is delivered intact. -/
theorem framer_overflow_recovery
    (blob : List Byte) (ps chunks : List (List Byte))
    (hblobz : ∀ b ∈ blob, b ≠ 0)
    (hlower : rxCap + rxChunkMax ≤ blob.length)
    (hupper : blob.length ≤ 2 * rxCap - rxChunkMax)
    (hsz : ∀ p ∈ ps, (cobsEncode p).length + rxChunkMax ≤ rxCap)
    (hchunk : ∀ c ∈ chunks, c.length ≤ rxChunkMax)
    (hflat : chunks.flatten = blob ++ 0 :: (ps.map sendFrame).flatten) :
    ∃ k, rxCap < k ∧ k ≤ blob.length ∧
      rxRun [] chunks =
        RxEvent.overflow :: rxDecodeEvent (blob.drop k) :: ps.map RxEvent.frame ∧
      (rxRun [] chunks).count RxEvent.overflow = 1 := by
  obtain ⟨k, n, h1, h2, h3, h4, h5⟩ :=
    rxRun_overflow_phase chunks [] blob ((ps.map sendFrame).flatten) hchunk
      (by simp) (Nat.zero_le _) (by simpa using hflat) hblobz hlower
  have hcc : rxChunkMax ≤ rxCap := by decide
  have hz2 : ∀ b ∈ blob.drop k, b ≠ 0 := fun b hb => hblobz b (List.drop_subset _ _ hb)
  have hEq : rxRun [] chunks =
      RxEvent.overflow :: rxDecodeEvent (blob.drop k) :: ps.map RxEvent.frame := by
    rw [h5]
    have hmax : maxRun ([] ++ (chunks.drop n).flatten) + rxChunkMax ≤ rxCap := by
      rw [List.nil_append, h3, maxRun_seg_cons _ _ hz2]
      have hlen1 : (blob.drop k).length + rxChunkMax + 1 ≤ rxCap := by
        simp only [List.length_drop]
        omega
      have hfr := maxRun_frames_le ps (rxCap - rxChunkMax)
        (fun p hp => by have := hsz p hp; omega)
      omega
    rw [rxRun_eq_rxPure [] (chunks.drop n) h4 (Nat.zero_le _) hmax,
      List.nil_append, h3, rxPure_seg_cons _ _ hz2, rxPure_frames]
  refine ⟨k, h1, by omega, hEq, ?_⟩
  rw [hEq]
  have hd := rxDecodeEvent_ne_overflow (blob.drop k)
  simp [List.count_cons, count_overflow_frames, Ne.symm hd]

theorem framer_overflow_recovery_witness :
    ∃ k, rxCap < k ∧ k ≤ (List.replicate (1025 * 1024) (2 : Byte)).length ∧
      rxRun [] (List.replicate 1025 (List.replicate 1024 (2 : Byte)) ++ [[0]]) =
        RxEvent.overflow ::
          rxDecodeEvent ((List.replicate (1025 * 1024) (2 : Byte)).drop k) ::
          ([] : List (List Byte)).map RxEvent.frame ∧
      (rxRun [] (List.replicate 1025 (List.replicate 1024 (2 : Byte)) ++ [[0]])).count
        RxEvent.overflow = 1 := by
  have hflatten :
      (List.replicate 1025 (List.replicate 1024 (2 : Byte)) ++ [[0]]).flatten =
        List.replicate (1025 * 1024) (2 : Byte) ++
          0 :: (([] : List (List Byte)).map sendFrame).flatten := by
    rw [List.flatten_append, flatten_replicate_replicate]
    rfl
  exact framer_overflow_recovery (List.replicate (1025 * 1024) 2) [] _
    (fun b hb => by rw [List.eq_of_mem_replicate hb]; decide)
    (by rw [List.length_replicate]; decide)
    (by rw [List.length_replicate]; decide)
    (by simp)
    (by
      intro c hc
      rcases List.mem_append.mp hc with hc | hc
      · rw [List.eq_of_mem_replicate hc, List.length_replicate]
        decide
      · simp only [List.mem_singleton] at hc
        rw [hc]
        decide)
    hflatten

/-! ### Connect-path claims -/

/-- C3: both connect paths issue a ping with the literal token `42`
immediately after the pipe is established and return a usable client
handle only if the same token comes back; a transport failure or a
mismatched token during this exchange is reported as `Protocol`, so no
client handle (and hence no successful user operation) is obtainable
before the initial ping has round-tripped. -/
theorem connect_ping_gate (a : ConnAttempt) (t : TlsConnAttempt) :
    (∀ c, (connect_insecure a).fst = .ok c → a.pingReply 42 = .ok 42) ∧
    (a.tcpConnectOk = true → a.peerAddrOk = true → a.setNodelayOk = true →
      (∀ e, a.pingReply 42 = .error e → (connect_insecure a).fst = .error .Protocol) ∧
      (∀ v, a.pingReply 42 = .ok v → v ≠ 42 → (connect_insecure a).fst = .error .Protocol)) ∧
    (∀ c, (connect_with_ca_pem t).fst = .ok c → t.pingReply 42 = .ok 42) ∧
    (t.caFileOk = true → t.caAddOk = true → t.tcpConnectOk = true → t.setNodelayOk = true →
      t.peerAddrOk = true → t.tlsHandshakeOk = true →
      (∀ e, t.pingReply 42 = .error e → (connect_with_ca_pem t).fst = .error .Protocol) ∧
      (∀ v, t.pingReply 42 = .ok v → v ≠ 42 →
        (connect_with_ca_pem t).fst = .error .Protocol)) := by
  obtain ⟨tcp, peer, nd, ping⟩ := a
  obtain ⟨caf, caa, tcp2, nd2, peer2, tls2, ping2⟩ := t
  refine ⟨?_, ?_, ?_, ?_⟩
  · intro c hc
    cases tcp <;> cases peer <;> cases nd <;> simp [connect_insecure] at hc <;>
      [skip] <;> try exact hc.elim
    cases hping : ping 42 with
    | error e => rw [hping] at hc; simp at hc
    | ok v =>
      rw [hping] at hc
      by_cases hv : v = 42
      · rw [hv] at hping
        exact hping
      · simp [hv] at hc
  · rintro rfl rfl rfl
    constructor
    · intro e he
      have he2 : ping 42 = Except.error e := he
      simp [connect_insecure, he2]
    · intro v hv hne
      have hv2 : ping 42 = Except.ok v := hv
      simp [connect_insecure, hv2, hne]
  · intro c hc
    cases caf <;> cases caa <;> cases tcp2 <;> cases nd2 <;> cases peer2 <;> cases tls2 <;>
      simp [connect_with_ca_pem] at hc <;> [skip] <;> try exact hc.elim
    cases hping : ping2 42 with
    | error e => rw [hping] at hc; simp at hc
    | ok v =>
      rw [hping] at hc
      by_cases hv : v = 42
      · rw [hv] at hping
        exact hping
      · simp [hv] at hc
  · rintro rfl rfl rfl rfl rfl rfl
    constructor
    · intro e he
      have he2 : ping2 42 = Except.error e := he
      simp [connect_with_ca_pem, he2]
    · intro v hv hne
      have hv2 : ping2 42 = Except.ok v := hv
      simp [connect_with_ca_pem, hv2, hne]

theorem connect_ping_gate_witness :
    (connect_insecure ⟨true, true, true, fun _ => Except.error HostErr.closed⟩).fst =
      .error .Protocol ∧
    (connect_with_ca_pem
        ⟨true, true, true, true, true, true, fun _ => Except.ok 7⟩).fst =
      .error .Protocol := by
  constructor
  · exact ((connect_ping_gate ⟨true, true, true, fun _ => Except.error HostErr.closed⟩
      ⟨true, true, true, true, true, true, fun _ => Except.ok 7⟩).2.1 rfl rfl rfl).1
      HostErr.closed rfl
  · exact ((connect_ping_gate ⟨true, true, true, fun _ => Except.error HostErr.closed⟩
      ⟨true, true, true, true, true, true, fun _ => Except.ok 7⟩).2.2.2 rfl rfl rfl rfl rfl
      rfl).2 7 rfl (by decide)

/-- C9 counterexample: the claim has the two paths swapped.  With every
establishment step succeeding, the TLS path passes `false` to
`set_nodelay` (coalescing stays enabled), and the plaintext path passes
`true` (coalescing disabled) — the negation of the claimed
configuration. -/
theorem nodelay_asymmetry_cex :
    ¬ ((connect_with_ca_pem
          ⟨true, true, true, true, true, true, fun t => Except.ok t⟩).snd = some true ∧
       (connect_insecure ⟨true, true, true, fun t => Except.ok t⟩).snd ≠ some true) := by
  decide

/-- C9 amended: Nagle-style coalescing is configured asymmetrically at
connect time, but the other way around from the claim: once the TCP
connect (and `peer_addr` for the plaintext path) succeeds,
`connect_insecure` calls `set_nodelay(true)` (explicitly disables
coalescing) and `connect_with_ca_pem` calls `set_nodelay(false)`
(explicitly leaves coalescing enabled). -/
theorem nodelay_asymmetry (a : ConnAttempt) (t : TlsConnAttempt)
    (h1 : a.tcpConnectOk = true) (h2 : a.peerAddrOk = true)
    (h3 : t.caFileOk = true) (h4 : t.caAddOk = true) (h5 : t.tcpConnectOk = true) :
    (connect_insecure a).snd = some true ∧ (connect_with_ca_pem t).snd = some false := by
  obtain ⟨tcp, peer, nd, ping⟩ := a
  obtain ⟨caf, caa, tcp2, nd2, peer2, tls2, ping2⟩ := t
  subst h1 h2 h3 h4 h5
  constructor
  · cases nd
    · rfl
    · cases hping : ping 42 with
      | error e => simp [connect_insecure, hping]
      | ok v => by_cases hv : v = 42 <;> simp [connect_insecure, hping, hv]
  · cases nd2
    · rfl
    · cases peer2
      · rfl
      · cases tls2
        · rfl
        · cases hping : ping2 42 with
          | error e => simp [connect_with_ca_pem, hping]
          | ok v => by_cases hv : v = 42 <;> simp [connect_with_ca_pem, hping, hv]

theorem nodelay_asymmetry_witness :
    (connect_insecure ⟨true, true, false, fun t => Except.ok t⟩).snd = some true ∧
    (connect_with_ca_pem
        ⟨true, true, true, false, true, true, fun t => Except.ok t⟩).snd = some false :=
  nodelay_asymmetry ⟨true, true, false, fun t => Except.ok t⟩
    ⟨true, true, true, false, true, true, fun t => Except.ok t⟩ rfl rfl rfl rfl rfl

/-! ### Typed RPC claims -/

/-- C5: a typed endpoint call selects an endpoint of the schema report
only when the path and both 8-byte keys (request and response) match
exactly; if the device is unknown or no endpoint matches all three, the
call returns `Server("endpoint not found")` without issuing a proxy
request; whenever a proxy request is issued, a fully matching endpoint
exists in the report. -/
theorem typed_endpoint_resolution {α β : Type} (d : Daemon) (Epath : String)
    (EreqKey ErespKey : Key) (ser : α → Option (List Byte))
    (deser : List Byte → Option β) (serial seq_no : Nat) (body : α) :
    (d.schemas serial = .ok none →
      proxy_endpoint d Epath EreqKey ErespKey ser deser serial seq_no body =
        (.error (.Server "endpoint not found"), none)) ∧
    (∀ sr, d.schemas serial = .ok (some sr) →
      sr.endpoints.find? (fun e =>
        e.path == Epath && e.req_key == EreqKey && e.resp_key == ErespKey) = none →
      proxy_endpoint d Epath EreqKey ErespKey ser deser serial seq_no body =
        (.error (.Server "endpoint not found"), none)) ∧
    (∀ req, (proxy_endpoint d Epath EreqKey ErespKey ser deser serial seq_no body).snd =
        some req →
      ∃ sr sch, d.schemas serial = .ok (some sr) ∧ sch ∈ sr.endpoints ∧
        sch.path = Epath ∧ sch.req_key = EreqKey ∧ sch.resp_key = ErespKey) := by
  refine ⟨?_, ?_, ?_⟩
  · intro hs
    simp [proxy_endpoint, get_device_schemas, hs]
  · intro sr hs hf
    simp [proxy_endpoint, get_device_schemas, hs, hf]
  · intro req hreq
    cases hs : d.schemas serial with
    | error e => simp [proxy_endpoint, get_device_schemas, hs] at hreq
    | ok o =>
      cases o with
      | none => simp [proxy_endpoint, get_device_schemas, hs] at hreq
      | some sr =>
        cases hf : sr.endpoints.find? (fun e =>
            e.path == Epath && e.req_key == EreqKey && e.resp_key == ErespKey) with
        | none => simp [proxy_endpoint, get_device_schemas, hs, hf] at hreq
        | some sch =>
          have hp := List.find?_some hf
          simp only [Bool.and_eq_true, beq_iff_eq] at hp
          exact ⟨sr, sch, rfl, List.mem_of_find?_eq_some hf, hp.1.1, hp.1.2, hp.2⟩

theorem typed_endpoint_resolution_witness :
    proxy_endpoint
        (Daemon.mk
          (fun _ => Except.ok (some (SchemaReport.mk []
            [] [EndpointReport.mk "e/other" 1 0 2 0])))
          (fun _ => Except.error HostErr.closed) (fun _ => Except.error HostErr.closed)
          (fun _ => Except.error HostErr.closed) (fun _ => Except.error HostErr.closed))
        "e/p" 11 22 (fun _ : Unit => some []) (fun _ => some ()) 1 0 () =
      (.error (.Server "endpoint not found"), none) :=
  (typed_endpoint_resolution _ "e/p" 11 22 _ _ 1 0 ()).2.1
    (SchemaReport.mk [] [] [EndpointReport.mk "e/other" 1 0 2 0]) rfl (by decide)

/-- C4: for both proxied endpoint calls, once the proxy request is
issued, a daemon reply `Ok` has its body decoded and returned; a
`WireErr` reply surfaces as a `Remote` error beginning with
`WireErr:` followed by the Debug-formatted wire error body, and an
`OtherErr` reply surfaces as a `Remote` error beginning with
`Other Server Err:` followed by the single-quoted message. -/
theorem proxy_response_mapping {α β V : Type} (d : Daemon) (Epath path : String)
    (EreqKey ErespKey : Key) (ser : α → Option (List Byte))
    (deser : List Byte → Option β) (dynEnc : SchemaTy → V → Option (List Byte))
    (dynDec : SchemaTy → List Byte → Except String V)
    (serial seq_no : Nat) (body : α) (jbody : V)
    (sr : SchemaReport) (sch sch2 : EndpointReport) (bytes bytes2 : List Byte)
    (hs : d.schemas serial = .ok (some sr))
    (hf : sr.endpoints.find? (fun e =>
      e.path == Epath && e.req_key == EreqKey && e.resp_key == ErespKey) = some sch)
    (henc : ser body = some bytes)
    (hf2 : sr.endpoints.find? (fun e => e.path == path) = some sch2)
    (henc2 : dynEnc sch2.req_ty jbody = some bytes2) :
    (∀ rk sq b v,
      d.proxy ⟨serial, sch.path, sch.req_key, sch.resp_key, seq_no, bytes⟩ =
        .ok (.Ok rk sq b) → deser b = some v →
      (proxy_endpoint d Epath EreqKey ErespKey ser deser serial seq_no body).fst = .ok v) ∧
    (∀ rk sq w,
      d.proxy ⟨serial, sch.path, sch.req_key, sch.resp_key, seq_no, bytes⟩ =
        .ok (.WireErr rk sq w) →
      (proxy_endpoint d Epath EreqKey ErespKey ser deser serial seq_no body).fst =
        .error (.Remote ("WireErr: " ++ w.debugStr))) ∧
    (∀ m,
      d.proxy ⟨serial, sch.path, sch.req_key, sch.resp_key, seq_no, bytes⟩ =
        .ok (.OtherErr m) →
      (proxy_endpoint d Epath EreqKey ErespKey ser deser serial seq_no body).fst =
        .error (.Remote ("Other Server Err: " ++ squote ++ m ++ squote))) ∧
    (∀ rk sq b v,
      d.proxy ⟨serial, sch2.path, sch2.req_key, sch2.resp_key, seq_no, bytes2⟩ =
        .ok (.Ok rk sq b) → dynDec sch2.resp_ty b = .ok v →
      (proxy_endpoint_json d dynEnc dynDec serial path seq_no jbody).fst = .ok v) ∧
    (∀ rk sq w,
      d.proxy ⟨serial, sch2.path, sch2.req_key, sch2.resp_key, seq_no, bytes2⟩ =
        .ok (.WireErr rk sq w) →
      (proxy_endpoint_json d dynEnc dynDec serial path seq_no jbody).fst =
        .error (.Remote ("WireErr: " ++ w.debugStr))) ∧
    (∀ m,
      d.proxy ⟨serial, sch2.path, sch2.req_key, sch2.resp_key, seq_no, bytes2⟩ =
        .ok (.OtherErr m) →
      (proxy_endpoint_json d dynEnc dynDec serial path seq_no jbody).fst =
        .error (.Remote ("Other Server Err: " ++ squote ++ m ++ squote))) := by
  refine ⟨?_, ?_, ?_, ?_, ?_, ?_⟩
  · intro rk sq b v hp hd
    simp [proxy_endpoint, get_device_schemas, hs, hf, henc, hp, hd]
  · intro rk sq w hp
    simp [proxy_endpoint, get_device_schemas, hs, hf, henc, hp]
  · intro m hp
    simp [proxy_endpoint, get_device_schemas, hs, hf, henc, hp]
  · intro rk sq b v hp hd
    simp [proxy_endpoint_json, hs, hf2, henc2, hp, hd]
  · intro rk sq w hp
    simp [proxy_endpoint_json, hs, hf2, henc2, hp]
  · intro m hp
    simp [proxy_endpoint_json, hs, hf2, henc2, hp]

theorem proxy_response_mapping_witness :
    (proxy_endpoint
        (Daemon.mk
          (fun _ => Except.ok (some (SchemaReport.mk [] []
            [EndpointReport.mk "e/p" 11 0 22 0])))
          (fun _ => Except.ok (ProxyResponse.OtherErr "boom"))
          (fun _ => Except.error HostErr.closed)
          (fun _ => Except.error HostErr.closed) (fun _ => Except.error HostErr.closed))
        "e/p" 11 22 (fun _ : Unit => some []) (fun _ => some ()) 1 0 ()).fst =
      .error (.Remote ("Other Server Err: " ++ squote ++ "boom" ++ squote)) :=
  (proxy_response_mapping _ "e/p" "e/p" 11 22 (fun _ : Unit => some []) (fun _ => some ())
    (fun _ (_ : Unit) => some []) (fun _ _ => Except.error "") 1 0 () ()
    (SchemaReport.mk [] [] [EndpointReport.mk "e/p" 11 0 22 0])
    (EndpointReport.mk "e/p" 11 0 22 0) (EndpointReport.mk "e/p" 11 0 22 0) [] []
    rfl (by decide) rfl (by decide) rfl).2.2.1 "boom" rfl

/-- C6: a stream listener returned by `stream_topic` or
`stream_topic_json` carries exactly the stream id of the daemon
`Started` reply; `recv` never yields a message whose embedded stream id
differs from that id — fanout messages with any other id are skipped
silently and the listener keeps waiting. -/
theorem stream_filter {α V : Type} :
    (∀ (d : Daemon) (subOk : Bool) (serial : Nat) (path : String) (L : JsonStreamListener),
      stream_topic_json d subOk serial path = .ok L →
      ∃ sr sch, d.schemas serial = .ok (some sr) ∧
        sr.topics_out.find? (fun e => e.path == path) = some sch ∧ L.schema = sch ∧
        d.startStream ⟨serial, path, sch.key⟩ = .ok (.Started L.stream_id)) ∧
    (∀ (L : JsonStreamListener) (dynDec : SchemaTy → List Byte → Except String V)
        (items : List SubRecv) (v : V),
      L.recv dynDec items = some v →
      ∃ m, SubRecv.msg m ∈ items ∧ m.stream_id = L.stream_id ∧
        dynDec L.schema.ty m.msg = .ok v) ∧
    (∀ (L : JsonStreamListener) (dynDec : SchemaTy → List Byte → Except String V)
        (m : TopicStreamMsg) (rest : List SubRecv), m.stream_id ≠ L.stream_id →
      L.recv dynDec (SubRecv.msg m :: rest) = L.recv dynDec rest) ∧
    (∀ (d : Daemon) (subOk : Bool) (Tpath : String) (TtopicKey : Key) (serial : Nat)
        (L : StreamListener),
      stream_topic d subOk Tpath TtopicKey serial = .ok L →
      ∃ sr sch, d.schemas serial = .ok (some sr) ∧
        sr.topics_out.find? (fun e => e.path == Tpath && e.key == TtopicKey) = some sch ∧
        d.startStream ⟨serial, Tpath, sch.key⟩ = .ok (.Started L.stream_id)) ∧
    (∀ (L : StreamListener) (deser : List Byte → Option α)
        (items : List SubRecv) (v : α),
      L.recv deser items = some v →
      ∃ m, SubRecv.msg m ∈ items ∧ m.stream_id = L.stream_id ∧ deser m.msg = some v) ∧
    (∀ (L : StreamListener) (deser : List Byte → Option α)
        (m : TopicStreamMsg) (rest : List SubRecv), m.stream_id ≠ L.stream_id →
      L.recv deser (SubRecv.msg m :: rest) = L.recv deser rest) := by
  refine ⟨?_, ?_, ?_, ?_, ?_, ?_⟩
  · intro d subOk serial path L hL
    cases hs : d.schemas serial with
    | error e => simp [stream_topic_json, hs] at hL
    | ok o =>
      cases o with
      | none => simp [stream_topic_json, hs] at hL
      | some sr =>
        cases hf : sr.topics_out.find? (fun e => e.path == path) with
        | none => simp [stream_topic_json, hs, hf] at hL
        | some sch =>
          cases subOk with
          | false => simp [stream_topic_json, hs, hf] at hL
          | true =>
            cases hss : d.startStream ⟨serial, path, sch.key⟩ with
            | error e => simp [stream_topic_json, hs, hf, hss] at hL
            | ok r =>
              cases r with
              | Started id =>
                simp only [stream_topic_json, hs, hf, hss, Bool.not_true,
                  Bool.false_eq_true, if_false] at hL
                cases hL
                exact ⟨sr, sch, rfl, hf, rfl, hss⟩
              | NoDeviceKnown => simp [stream_topic_json, hs, hf, hss] at hL
              | DeviceDisconnected => simp [stream_topic_json, hs, hf, hss] at hL
              | NoSuchTopic => simp [stream_topic_json, hs, hf, hss] at hL
  · intro L dynDec items v h
    induction items with
    | nil => simp [JsonStreamListener.recv] at h
    | cons it rest ih =>
      cases it with
      | lagged n =>
        obtain ⟨m, hm, h1, h2⟩ := ih h
        exact ⟨m, List.mem_cons_of_mem _ hm, h1, h2⟩
      | msg m =>
        by_cases hid : m.stream_id = L.stream_id
        · rw [JsonStreamListener.recv] at h
          rw [if_neg (by simpa using hid)] at h
          cases hdec : dynDec L.schema.ty m.msg with
          | error e =>
            rw [hdec] at h
            obtain ⟨m2, hm2, h1, h2⟩ := ih h
            exact ⟨m2, List.mem_cons_of_mem _ hm2, h1, h2⟩
          | ok v0 =>
            rw [hdec] at h
            cases h
            exact ⟨m, List.mem_cons_self _ _, hid, hdec⟩
        · rw [JsonStreamListener.recv, if_pos (by simpa using hid)] at h
          obtain ⟨m2, hm2, h1, h2⟩ := ih h
          exact ⟨m2, List.mem_cons_of_mem _ hm2, h1, h2⟩
  · intro L dynDec m rest hid
    rw [JsonStreamListener.recv, if_pos (by simpa using hid)]
  · intro d subOk Tpath TtopicKey serial L hL
    cases hs : d.schemas serial with
    | error e => simp [stream_topic, hs] at hL
    | ok o =>
      cases o with
      | none => simp [stream_topic, hs] at hL
      | some sr =>
        cases hf : sr.topics_out.find? (fun e => e.path == Tpath && e.key == TtopicKey) with
        | none => simp [stream_topic, hs, hf] at hL
        | some sch =>
          cases subOk with
          | false => simp [stream_topic, hs, hf] at hL
          | true =>
            cases hss : d.startStream ⟨serial, Tpath, sch.key⟩ with
            | error e => simp [stream_topic, hs, hf, hss] at hL
            | ok r =>
              cases r with
              | Started id =>
                simp only [stream_topic, hs, hf, hss, Bool.not_true,
                  Bool.false_eq_true, if_false] at hL
                cases hL
                exact ⟨sr, sch, rfl, hf, hss⟩
              | NoDeviceKnown => simp [stream_topic, hs, hf, hss] at hL
              | DeviceDisconnected => simp [stream_topic, hs, hf, hss] at hL
              | NoSuchTopic => simp [stream_topic, hs, hf, hss] at hL
  · intro L deser items v h
    induction items with
    | nil => simp [StreamListener.recv] at h
    | cons it rest ih =>
      cases it with
      | lagged n =>
        obtain ⟨m, hm, h1, h2⟩ := ih h
        exact ⟨m, List.mem_cons_of_mem _ hm, h1, h2⟩
      | msg m =>
        by_cases hid : m.stream_id = L.stream_id
        · rw [StreamListener.recv] at h
          rw [if_neg (by simpa using hid)] at h
          cases hdec : deser m.msg with
          | none =>
            rw [hdec] at h
            obtain ⟨m2, hm2, h1, h2⟩ := ih h
            exact ⟨m2, List.mem_cons_of_mem _ hm2, h1, h2⟩
          | some v0 =>
            rw [hdec] at h
            cases h
            exact ⟨m, List.mem_cons_self _ _, hid, hdec⟩
        · rw [StreamListener.recv, if_pos (by simpa using hid)] at h
          obtain ⟨m2, hm2, h1, h2⟩ := ih h
          exact ⟨m2, List.mem_cons_of_mem _ hm2, h1, h2⟩
  · intro L deser m rest hid
    rw [StreamListener.recv, if_pos (by simpa using hid)]

theorem stream_filter_witness :
    ∃ m, SubRecv.msg m ∈
        [SubRecv.msg (TopicStreamMsg.mk 9 [1]), SubRecv.lagged 3,
          SubRecv.msg (TopicStreamMsg.mk 5 [2])] ∧
      m.stream_id = (JsonStreamListener.mk 5 (TopicReport.mk "t" 7 0)).stream_id ∧
      (fun _ b => (Except.ok b : Except String (List Byte)))
        (JsonStreamListener.mk 5 (TopicReport.mk "t" 7 0)).schema.ty m.msg =
        Except.ok [2] :=
  (@stream_filter Unit (List Byte)).2.1
    (JsonStreamListener.mk 5 (TopicReport.mk "t" 7 0))
    (fun _ b => Except.ok b)
    [SubRecv.msg (TopicStreamMsg.mk 9 [1]), SubRecv.lagged 3,
      SubRecv.msg (TopicStreamMsg.mk 5 [2])]
    [2] (by decide)

/-- C7 counterexample: with a daemon whose schema fetch fails with
`HostErr::Closed` (connection gone), `proxy_endpoint_json` reports
`Server("endpoint not found")` — neither `ConnectionClosed` nor
`Protocol` — because of its `let Ok(Some(..)) = .. else` pattern. -/
theorem daemon_unreachable_cex :
    (proxy_endpoint_json
        (Daemon.mk (fun _ => Except.error HostErr.closed)
          (fun _ => Except.error HostErr.closed) (fun _ => Except.error HostErr.closed)
          (fun _ => Except.error HostErr.closed) (fun _ => Except.error HostErr.closed))
        (fun _ (_ : Unit) => some []) (fun _ _ => Except.error "") 0 "p" 0 ()).fst =
      .error (.Server "endpoint not found") ∧
    (Except.error (ClientError.Server "endpoint not found") : Except ClientError Unit) ≠
      .error .ConnectionClosed ∧
    (Except.error (ClientError.Server "endpoint not found") : Except ClientError Unit) ≠
      .error .Protocol := by
  refine ⟨rfl, by simp, by simp⟩

/-- C7 amended: `proxy_endpoint` and the `get_*` operations propagate a
schema-fetch transport failure through the `HostErr → ClientError`
conversion (`Closed → ConnectionClosed`, `Wire`/`BadResponse` →
`Protocol`), and a transport failure of the main proxy call surfaces
the same way; but `proxy_endpoint_json`, `publish_topic`,
`publish_topic_json`, `stream_topic` and `stream_topic_json` report
every schema-fetch failure as `Server("endpoint/topic not found")`. -/
theorem daemon_unreachable_mapping {α β V : Type} (d : Daemon) (Epath Tpath path : String)
    (EreqKey ErespKey TtopicKey : Key) (ser : α → Option (List Byte))
    (deser : List Byte → Option β) (dynEnc : SchemaTy → V → Option (List Byte))
    (dynDec : SchemaTy → List Byte → Except String V)
    (serial seq_no count : Nat) (body : α) (jbody : V) (subOk : Bool) :
    (d.schemas serial = .error .closed →
      (proxy_endpoint d Epath EreqKey ErespKey ser deser serial seq_no body).fst =
        .error .ConnectionClosed ∧
      get_device_topics_out_by_path_raw d serial path count = .error .ConnectionClosed) ∧
    (∀ w, d.schemas serial = .error (.wire w) →
      (proxy_endpoint d Epath EreqKey ErespKey ser deser serial seq_no body).fst =
        .error .Protocol ∧
      get_device_topics_out_by_path_raw d serial path count = .error .Protocol) ∧
    (d.schemas serial = .error .badResponse →
      (proxy_endpoint d Epath EreqKey ErespKey ser deser serial seq_no body).fst =
        .error .Protocol) ∧
    (∀ e, d.schemas serial = .error e →
      (proxy_endpoint_json d dynEnc dynDec serial path seq_no jbody).fst =
        .error (.Server "endpoint not found") ∧
      publish_topic_json d dynEnc serial path seq_no jbody =
        .error (.Server "topic not found") ∧
      publish_topic d Tpath TtopicKey ser serial seq_no body =
        .error (.Server "topic not found") ∧
      stream_topic_json d subOk serial path = .error (.Server "topic not found") ∧
      stream_topic d subOk Tpath TtopicKey serial = .error (.Server "topic not found")) ∧
    (∀ sr sch bytes, d.schemas serial = .ok (some sr) →
      sr.endpoints.find? (fun e =>
        e.path == Epath && e.req_key == EreqKey && e.resp_key == ErespKey) = some sch →
      ser body = some bytes →
      d.proxy ⟨serial, sch.path, sch.req_key, sch.resp_key, seq_no, bytes⟩ =
        .error .closed →
      (proxy_endpoint d Epath EreqKey ErespKey ser deser serial seq_no body).fst =
        .error .ConnectionClosed) := by
  refine ⟨?_, ?_, ?_, ?_, ?_⟩
  · intro hs
    constructor
    · simp [proxy_endpoint, get_device_schemas, hs, ClientError.ofHostErr]
    · simp [get_device_topics_out_by_path_raw, get_device_schemas, hs, ClientError.ofHostErr]
  · intro w hs
    constructor
    · simp [proxy_endpoint, get_device_schemas, hs, ClientError.ofHostErr]
    · simp [get_device_topics_out_by_path_raw, get_device_schemas, hs, ClientError.ofHostErr]
  · intro hs
    simp [proxy_endpoint, get_device_schemas, hs, ClientError.ofHostErr]
  · intro e hs
    refine ⟨?_, ?_, ?_, ?_, ?_⟩
    · simp [proxy_endpoint_json, hs]
    · simp [publish_topic_json, hs]
    · simp [publish_topic, hs]
    · simp [stream_topic_json, hs]
    · simp [stream_topic, hs]
  · intro sr sch bytes hs hf henc hp
    simp [proxy_endpoint, get_device_schemas, hs, hf, henc, hp, ClientError.ofHostErr]

theorem daemon_unreachable_mapping_witness :
    (proxy_endpoint
        (Daemon.mk (fun _ => Except.error HostErr.closed)
          (fun _ => Except.error HostErr.closed) (fun _ => Except.error HostErr.closed)
          (fun _ => Except.error HostErr.closed) (fun _ => Except.error HostErr.closed))
        "e" 1 2 (fun _ : Unit => some []) (fun _ => some ()) 0 0 ()).fst =
      .error .ConnectionClosed :=
  ((daemon_unreachable_mapping
      (Daemon.mk (fun _ => Except.error HostErr.closed)
        (fun _ => Except.error HostErr.closed) (fun _ => Except.error HostErr.closed)
        (fun _ => Except.error HostErr.closed) (fun _ => Except.error HostErr.closed))
      "e" "t" "p" 1 2 3 (fun _ : Unit => some []) (fun _ => some ())
      (fun _ (_ : Unit) => some []) (fun _ _ => Except.error "") 0 0 0 () () true).1 rfl).1

/-- C8 counterexample: a stored topic message that fails the
schema-directed decode makes `get_device_topics_out_by_path_json`
return `Encoding`, not the `Dynamic(msg)` variant the claim names. -/
theorem topics_json_decode_error_cex :
    get_device_topics_out_by_path_json
        (Daemon.mk
          (fun _ => Except.ok (some (SchemaReport.mk [] [TopicReport.mk "t" 7 0] [])))
          (fun _ => Except.error HostErr.closed) (fun _ => Except.error HostErr.closed)
          (fun _ => Except.ok (some [TopicMsg.mk 1 [9]]))
          (fun _ => Except.error HostErr.closed))
        (fun _ _ => (Except.error "bad" : Except String Unit)) 1 "t" 10 =
      .error .Encoding ∧
    ¬∃ msg, get_device_topics_out_by_path_json
        (Daemon.mk
          (fun _ => Except.ok (some (SchemaReport.mk [] [TopicReport.mk "t" 7 0] [])))
          (fun _ => Except.error HostErr.closed) (fun _ => Except.error HostErr.closed)
          (fun _ => Except.ok (some [TopicMsg.mk 1 [9]]))
          (fun _ => Except.error HostErr.closed))
        (fun _ _ => (Except.error "bad" : Except String Unit)) 1 "t" 10 =
      .error (.Dynamic msg) := by
  have h1 : get_device_topics_out_by_path_json
      (Daemon.mk
        (fun _ => Except.ok (some (SchemaReport.mk [] [TopicReport.mk "t" 7 0] [])))
        (fun _ => Except.error HostErr.closed) (fun _ => Except.error HostErr.closed)
        (fun _ => Except.ok (some [TopicMsg.mk 1 [9]]))
        (fun _ => Except.error HostErr.closed))
      (fun _ _ => (Except.error "bad" : Except String Unit)) 1 "t" 10 =
      .error .Encoding := rfl
  refine ⟨h1, ?_⟩
  rintro ⟨msg, hmsg⟩
  rw [h1] at hmsg
  simp at hmsg

theorem mapM_decode_error {V : Type} (dynDec : SchemaTy → List Byte → Except String V)
    (ty : SchemaTy) :
    ∀ (raws : List TopicMsg), (∃ tm ∈ raws, ∃ e, dynDec ty tm.msg = .error e) →
    raws.mapM (fun tm =>
        match dynDec ty tm.msg with
        | .error _ => (Except.error ClientError.Encoding : Except ClientError (Uuid × V))
        | .ok v => Except.ok (tm.uuidv7, v)) = .error ClientError.Encoding := by
  intro raws
  induction raws with
  | nil =>
    rintro ⟨tm, htm, _⟩
    simp at htm
  | cons tm rest ih =>
    rintro ⟨tm2, htm2, e, he⟩
    rw [List.mapM_cons]
    rcases List.mem_cons.mp htm2 with rfl | hmem
    · rw [he]
      rfl
    · cases hd : dynDec ty tm.msg with
      | error e2 => rfl
      | ok v =>
        have hrest := ih ⟨tm2, hmem, e, he⟩
        rw [hrest]
        rfl

/-- C8 amended: when the schema-directed decode of a stored topic
message fails, `get_device_topics_out_by_path_json` reports the
failure as `Encoding` (via `.map_err(|_| ClientError::Encoding)?`),
not as the `Dynamic(msg)` variant. -/
theorem topics_json_decode_error_encoding {V : Type} (d : Daemon)
    (dynDec : SchemaTy → List Byte → Except String V) (serial : Nat) (path : String)
    (count : Nat) (sr : SchemaReport) (sch : TopicReport) (raws : List TopicMsg)
    (hs : d.schemas serial = .ok (some sr))
    (hf : sr.topics_out.find? (fun t => t.path == path) = some sch)
    (hr : d.topics ⟨serial, path, sch.key, count⟩ = .ok (some raws))
    (hfail : ∃ tm ∈ raws, ∃ e, dynDec sch.ty tm.msg = .error e) :
    get_device_topics_out_by_path_json d dynDec serial path count = .error .Encoding := by
  have hm := mapM_decode_error dynDec sch.ty raws hfail
  simp only [get_device_topics_out_by_path_json, get_device_schemas, hs, hf, hr]
  rw [hm]

theorem topics_json_decode_error_encoding_witness :
    get_device_topics_out_by_path_json
        (Daemon.mk
          (fun _ => Except.ok (some (SchemaReport.mk [] [TopicReport.mk "t" 7 0] [])))
          (fun _ => Except.error HostErr.closed) (fun _ => Except.error HostErr.closed)
          (fun _ => Except.ok (some [TopicMsg.mk 1 [9]]))
          (fun _ => Except.error HostErr.closed))
        (fun _ _ => (Except.error "bad" : Except String Unit)) 1 "t" 10 =
      .error .Encoding :=
  topics_json_decode_error_encoding _ _ 1 "t" 10
    (SchemaReport.mk [] [TopicReport.mk "t" 7 0] []) (TopicReport.mk "t" 7 0)
    [TopicMsg.mk 1 [9]] rfl (by decide) rfl
    ⟨TopicMsg.mk 1 [9], by decide, "bad", rfl⟩

/-- C10: for a known device, a path naming no `topics_out` entry makes
`get_device_topics_out_by_path_raw` and `_json` return `Ok(None)` — the
same value as for an unknown device — rather than a `Server` error,
while `publish_topic_json` (missing `topics_in` path) and
`stream_topic_json` (missing `topics_out` path) return
`Server("topic not found")`. -/
theorem topics_get_none_vs_publish_stream {V : Type} (d d2 : Daemon)
    (dynDec : SchemaTy → List Byte → Except String V)
    (dynEnc : SchemaTy → V → Option (List Byte))
    (serial count seq_no : Nat) (path : String) (jbody : V) (subOk : Bool)
    (sr : SchemaReport)
    (hs : d.schemas serial = .ok (some sr))
    (hout : sr.topics_out.find? (fun t => t.path == path) = none)
    (hin : sr.topics_in.find? (fun t => t.path == path) = none)
    (hs2 : d2.schemas serial = .ok none) :
    get_device_topics_out_by_path_raw d serial path count = .ok none ∧
    get_device_topics_out_by_path_json d dynDec serial path count = .ok none ∧
    get_device_topics_out_by_path_raw d2 serial path count = .ok none ∧
    get_device_topics_out_by_path_json d2 dynDec serial path count = .ok none ∧
    publish_topic_json d dynEnc serial path seq_no jbody =
      .error (.Server "topic not found") ∧
    stream_topic_json d subOk serial path = .error (.Server "topic not found") := by
  refine ⟨?_, ?_, ?_, ?_, ?_, ?_⟩
  · simp [get_device_topics_out_by_path_raw, get_device_schemas, hs, hout]
  · simp [get_device_topics_out_by_path_json, get_device_schemas, hs, hout]
  · simp [get_device_topics_out_by_path_raw, get_device_schemas, hs2]
  · simp [get_device_topics_out_by_path_json, get_device_schemas, hs2]
  · simp [publish_topic_json, hs, hin]
  · simp [stream_topic_json, hs, hout]

theorem topics_get_none_vs_publish_stream_witness :
    get_device_topics_out_by_path_raw
        (Daemon.mk (fun _ => Except.ok (some (SchemaReport.mk [] [] [])))
          (fun _ => Except.error HostErr.closed) (fun _ => Except.error HostErr.closed)
          (fun _ => Except.error HostErr.closed) (fun _ => Except.error HostErr.closed))
        1 "nope" 4 = .ok none ∧
    publish_topic_json
        (Daemon.mk (fun _ => Except.ok (some (SchemaReport.mk [] [] [])))
          (fun _ => Except.error HostErr.closed) (fun _ => Except.error HostErr.closed)
          (fun _ => Except.error HostErr.closed) (fun _ => Except.error HostErr.closed))
        (fun _ (_ : Unit) => some []) 1 "nope" 0 () = .error (.Server "topic not found") := by
  have h := topics_get_none_vs_publish_stream
    (Daemon.mk (fun _ => Except.ok (some (SchemaReport.mk [] [] [])))
      (fun _ => Except.error HostErr.closed) (fun _ => Except.error HostErr.closed)
      (fun _ => Except.error HostErr.closed) (fun _ => Except.error HostErr.closed))
    (Daemon.mk (fun _ => Except.ok none)
      (fun _ => Except.error HostErr.closed) (fun _ => Except.error HostErr.closed)
      (fun _ => Except.error HostErr.closed) (fun _ => Except.error HostErr.closed))
    (fun _ _ => (Except.error "" : Except String Unit)) (fun _ (_ : Unit) => some [])
    1 4 0 "nope" () true (SchemaReport.mk [] [] []) rfl rfl rfl rfl
  exact ⟨h.1, h.2.2.2.2.1⟩

end Poststation
